import Mathlib

/-!
Shallow embedding of the dungeon-game repository.

Part 1: the simple dungeon generator from src/server/src/DungeonGenerator.ts.
Randomness (Math.random driven source-room index and direction picks) is
modelled by an explicit oracle: a list of choices, one consumed per loop
attempt, so the attempt budget equals the length of the choice list.
All coordinates are exact: room positions are integers in the source
(multiples of roomSize + roomSpacing starting from the origin), and the
spawn point uses rationals for the half-size center and the 1.5 height.
-/

namespace DungeonGame

/-- Cardinal directions used by both generator variants. -/
inductive Dir
  | north
  | south
  | east
  | west
deriving DecidableEq, Repr

/-- The side opposite to a given side; a connection opens a door on a
direction of the source room and on the opposite direction of the new room. -/
def Dir.opposite : Dir → Dir
  | .north => .south
  | .south => .north
  | .east => .west
  | .west => .east

/-- Four per-side boolean flags, used both for walls and for doors. -/
structure Sides where
  north : Bool
  south : Bool
  east : Bool
  west : Bool
deriving DecidableEq, Repr

/-- Flip the flag of one side to true, leaving the others unchanged
(models the door and wall assignments in createConnection). -/
def Sides.withTrue (s : Sides) : Dir → Sides
  | .north => { s with north := true }
  | .south => { s with south := true }
  | .east => { s with east := true }
  | .west => { s with west := true }

/-- Read the flag of one side. -/
def Sides.at (s : Sides) : Dir → Bool
  | .north => s.north
  | .south => s.south
  | .east => s.east
  | .west => s.west

/-- Room record of the simple generator (DungeonGenerator.ts, interface Room). -/
structure Room where
  x : Int
  y : Int
  z : Int
  size : Int
  height : Int
  walls : Sides
  doors : Sides
deriving DecidableEq, Repr

/-- Axis tag of a hallway in the simple variant. -/
inductive HallDir
  | horizontal
  | vertical
deriving DecidableEq, Repr

/-- Hallway record of the simple generator (interface Hallway). -/
structure Hallway where
  x : Int
  y : Int
  z : Int
  width : Int
  height : Int
  depth : Int
  direction : HallDir
  leftWall : Bool
  rightWall : Bool
deriving DecidableEq, Repr

/-- Fixed room size of the simple generator (roomSize = 30). -/
def roomSize : Int := 30

/-- Hallway width of the simple generator (hallwayWidth = 4). -/
def hallwayWidth : Int := 4

/-- Hallway height of the simple generator (hallwayHeight = 3). -/
def hallwayHeight : Int := 3

/-- Gap kept between room footprints (roomSpacing = 12). -/
def roomSpacing : Int := 12

/-- Target room count of the simple generator (numRooms = 8). -/
def numRooms : Nat := 8

/-- createRoom: a fresh square room with all four walls up and no doors. -/
def createRoom (x y z : Int) : Room :=
  { x := x, y := y, z := z, size := roomSize, height := 3,
    walls := ⟨true, true, true, true⟩,
    doors := ⟨false, false, false, false⟩ }

/-- Candidate origin for a new room adjacent to a source room in a direction
(the switch at the start of findValidRoomPosition). -/
def candidatePos (src : Room) : Dir → Int × Int
  | .north => (src.x, src.z - roomSize - roomSpacing)
  | .south => (src.x, src.z + roomSize + roomSpacing)
  | .east => (src.x + roomSize + roomSpacing, src.z)
  | .west => (src.x - roomSize - roomSpacing, src.z)

/-- The candidate room built by findValidRoomPosition before validity checking. -/
def candRoom (src : Room) (d : Dir) : Room :=
  createRoom (candidatePos src d).1 0 (candidatePos src d).2

/-- roomsOverlap: the axis-aligned overlap test of the source, with each
footprint extended by the spacing; true when the pair overlaps on the x axis
and on the z axis simultaneously. -/
def roomsOverlap (r1 r2 : Room) : Prop :=
  r1.x < r2.x + r2.size + roomSpacing ∧
  r1.x + r1.size + roomSpacing > r2.x ∧
  r1.z < r2.z + r2.size + roomSpacing ∧
  r1.z + r1.size + roomSpacing > r2.z

instance (r1 r2 : Room) : Decidable (roomsOverlap r1 r2) := by
  unfold roomsOverlap; infer_instance

/-- isValidRoomPosition: the early-return loop over existing rooms, phrased as
a bounded universal (it returns true exactly when no existing room overlaps). -/
def isValidRoomPosition (rooms : List Room) (room : Room) : Prop :=
  ∀ existing ∈ rooms, ¬ roomsOverlap room existing

instance (rooms : List Room) (room : Room) : Decidable (isValidRoomPosition rooms room) :=
  List.decidableBAll _ rooms

/-- The per-room half of createConnection: set the door flag and the wall flag
of one side to true. -/
def addDoor (r : Room) (d : Dir) : Room :=
  { r with doors := r.doors.withTrue d, walls := r.walls.withTrue d }

/-- createHallway: the corridor record emitted between a source room and the
new room; it only reads the x, z and size fields of the two rooms. -/
def createHallway (sourceRoom newRoom : Room) (d : Dir) : Hallway :=
  match d with
  | .east | .west =>
      let minX := min sourceRoom.x newRoom.x
      let maxX := max sourceRoom.x newRoom.x
      { x := minX + roomSize, y := 0,
        z := min sourceRoom.z newRoom.z + roomSize / 2 - hallwayWidth / 2,
        width := maxX - minX - roomSize, height := hallwayHeight,
        depth := hallwayWidth, direction := .horizontal,
        leftWall := true, rightWall := true }
  | .north | .south =>
      let minZ := min sourceRoom.z newRoom.z
      let maxZ := max sourceRoom.z newRoom.z
      { x := min sourceRoom.x newRoom.x + roomSize / 2 - hallwayWidth / 2, y := 0,
        z := minZ + roomSize, width := hallwayWidth, height := hallwayHeight,
        depth := maxZ - minZ - roomSize, direction := .vertical,
        leftWall := true, rightWall := true }

/-- Mutable generator state: the rooms and hallways arrays. -/
structure GenState where
  rooms : List Room
  hallways : List Hallway
deriving DecidableEq, Repr

/-- One attempt's random draws: the raw source-room pick (reduced modulo the
current room count, as Math.floor of a uniform draw times the length always
lands in range) and the direction pick. -/
structure Choice where
  srcPick : Nat
  dir : Dir
deriving DecidableEq, Repr

/-- The state after an accepted placement: createConnection flips the facing
door and wall flags of the source room (in place, at its index) and of the
new room, the new room is pushed, and one hallway is pushed. -/
def acceptConnection (s : GenState) (i : Nat) (hi : i < s.rooms.length) (d : Dir) : GenState :=
  { rooms := s.rooms.set i (addDoor (s.rooms.get ⟨i, hi⟩) d)
               ++ [addDoor (candRoom (s.rooms.get ⟨i, hi⟩) d) d.opposite],
    hallways := s.hallways ++ [createHallway (s.rooms.get ⟨i, hi⟩)
                  (candRoom (s.rooms.get ⟨i, hi⟩) d) d] }

/-- One iteration of the generation loop body: pick a source room, build the
candidate in the picked direction, and accept it when isValidRoomPosition
holds (the rooms list is never empty, so the guard is for totality only). -/
def genStep (c : Choice) (s : GenState) : GenState :=
  if hi : c.srcPick % s.rooms.length < s.rooms.length then
    if isValidRoomPosition s.rooms (candRoom (s.rooms.get ⟨c.srcPick % s.rooms.length, hi⟩) c.dir)
    then acceptConnection s (c.srcPick % s.rooms.length) hi c.dir
    else s
  else s

/-- The while loop: run while fewer than target rooms exist and attempts
remain; one choice is consumed per attempt. -/
def genLoop (target : Nat) : List Choice → GenState → GenState
  | [], s => s
  | c :: cs, s =>
      if s.rooms.length < target then genLoop target cs (genStep c s) else s

/-- The aggregate returned by generateDungeon. -/
structure Layout where
  rooms : List Room
  hallways : List Hallway
  spawnPoint : ℚ × ℚ × ℚ
deriving DecidableEq, Repr

/-- generateDungeon: seed room at the origin, spawn point at its center at
player height 1.5, then the placement loop over the attempt budget. -/
def generateDungeon (choices : List Choice) (target : Nat) : Layout :=
  let firstRoom := createRoom 0 0 0
  let spawnPoint : ℚ × ℚ × ℚ :=
    ((firstRoom.x : ℚ) + (firstRoom.size : ℚ) / 2, 3 / 2,
     (firstRoom.z : ℚ) + (firstRoom.size : ℚ) / 2)
  let final := genLoop target choices ⟨[firstRoom], []⟩
  ⟨final.rooms, final.hallways, spawnPoint⟩

example : (generateDungeon [] 1).rooms.length = 1 := by decide

example : (generateDungeon [⟨0, .east⟩] 8).rooms.length = 2 := by decide

example : (generateDungeon [⟨0, .east⟩, ⟨0, .east⟩] 8).rooms.length = 2 := by decide

example : (generateDungeon [⟨0, .east⟩, ⟨1, .west⟩, ⟨0, .north⟩] 8).rooms.length = 3 := by decide

/-! Invariant machinery for the simple generator. -/

/-- Read the flag of one side. -/
def Sides.flag (s : Sides) : Dir → Bool
  | .north => s.north
  | .south => s.south
  | .east => s.east
  | .west => s.west

/-- Origin displacement of the room placed in a given direction: exactly one
room size plus one spacing along the direction's axis. -/
def dirOff : Dir → Int × Int
  | .north => (0, -(roomSize + roomSpacing))
  | .south => (0, roomSize + roomSpacing)
  | .east => (roomSize + roomSpacing, 0)
  | .west => (-(roomSize + roomSpacing), 0)

/-- Two rooms are linked by a recorded door connection: the second sits at
exactly the generation offset in some direction from the first, the first has
the door flag on that side and the second the door flag on the opposite side. -/
def doorLinked (a b : Room) : Prop :=
  ∃ dd : Dir, b.x = a.x + (dirOff dd).1 ∧ b.z = a.z + (dirOff dd).2 ∧
    a.doors.flag dd = true ∧ b.doors.flag dd.opposite = true

/-- Reachability between indices of the rooms list along door connections. -/
inductive Reach (rooms : List Room) : Nat → Nat → Prop
  | refl (i : Nat) : Reach rooms i i
  | tail {i j k : Nat} (hj : j < rooms.length) (hk : k < rooms.length)
      (hr : Reach rooms i j) (hlink : doorLinked rooms[j] rooms[k]) : Reach rooms i k

/-- Same footprint and no fewer doors: how a room evolves when a connection
only flips its door flags. -/
def roomLe (a b : Room) : Prop :=
  a.x = b.x ∧ a.z = b.z ∧ a.size = b.size ∧
  ∀ dd : Dir, a.doors.flag dd = true → b.doors.flag dd = true

/-- Every room reachable from the seed room at index 0. -/
def allReach (rooms : List Room) : Prop :=
  ∀ j, ∀ hj : j < rooms.length, Reach rooms 0 j

/-- Pairwise non-overlap of distinct rooms. -/
def noOverlaps (rooms : List Room) : Prop :=
  ∀ i j, ∀ hi : i < rooms.length, ∀ hj : j < rooms.length,
    i ≠ j → ¬ roomsOverlap rooms[i] rooms[j]

/-- Door flags come in symmetric pairs: a door on some side of a room has a
partner room at the generation offset with the opposite door flag set. -/
def doorSym (rooms : List Room) : Prop :=
  ∀ k, ∀ hk : k < rooms.length, ∀ dd : Dir, rooms[k].doors.flag dd = true →
    ∃ l, ∃ hl : l < rooms.length,
      rooms[l].x = rooms[k].x + (dirOff dd).1 ∧
      rooms[l].z = rooms[k].z + (dirOff dd).2 ∧
      rooms[l].doors.flag dd.opposite = true

/-- The overlap test of the source coincides with the axis-aligned overlap of
the two footprints each expanded symmetrically by half the spacing on every
side (coordinates doubled to stay integral); overlap needs both axes. -/
def symmetricExpandedOverlap (a b : Room) : Prop :=
  (2 * a.x - roomSpacing < 2 * (b.x + b.size) + roomSpacing ∧
   2 * b.x - roomSpacing < 2 * (a.x + a.size) + roomSpacing) ∧
  (2 * a.z - roomSpacing < 2 * (b.z + b.size) + roomSpacing ∧
   2 * b.z - roomSpacing < 2 * (a.z + a.size) + roomSpacing)

lemma roomsOverlap_iff_symmetricExpanded (a b : Room) :
    roomsOverlap a b ↔ symmetricExpandedOverlap a b := by
  unfold roomsOverlap symmetricExpandedOverlap
  constructor
  · intro h; exact ⟨⟨by omega, by omega⟩, ⟨by omega, by omega⟩⟩
  · intro h; obtain ⟨⟨h1, h2⟩, h3, h4⟩ := h; exact ⟨by omega, by omega, by omega, by omega⟩

lemma roomsOverlap_comm (a b : Room) : roomsOverlap a b ↔ roomsOverlap b a := by
  unfold roomsOverlap
  constructor <;> (intro h; exact ⟨by omega, by omega, by omega, by omega⟩)

lemma roomsOverlap_addDoor_left (a b : Room) (d : Dir) :
    roomsOverlap (addDoor a d) b ↔ roomsOverlap a b := Iff.rfl

lemma roomsOverlap_addDoor_right (a b : Room) (d : Dir) :
    roomsOverlap a (addDoor b d) ↔ roomsOverlap a b := Iff.rfl

lemma opposite_opposite (d : Dir) : d.opposite.opposite = d := by cases d <;> rfl

lemma dirOff_opposite (d : Dir) :
    (dirOff d.opposite).1 = -(dirOff d).1 ∧ (dirOff d.opposite).2 = -(dirOff d).2 := by
  cases d <;> exact ⟨by simp [dirOff, Dir.opposite], by simp [dirOff, Dir.opposite]⟩

lemma candidatePos_eq (src : Room) (d : Dir) :
    (candidatePos src d).1 = src.x + (dirOff d).1 ∧
    (candidatePos src d).2 = src.z + (dirOff d).2 := by
  cases d <;> refine ⟨?_, ?_⟩ <;> simp [candidatePos, dirOff] <;> try omega

lemma candRoom_fields (src : Room) (d : Dir) :
    (candRoom src d).x = src.x + (dirOff d).1 ∧
    (candRoom src d).z = src.z + (dirOff d).2 ∧
    (candRoom src d).size = roomSize := by
  exact ⟨(candidatePos_eq src d).1, (candidatePos_eq src d).2, rfl⟩

lemma candRoom_doors (src : Room) (d dd : Dir) :
    (candRoom src d).doors.flag dd = false := by
  cases dd <;> rfl

lemma addDoor_flag_self (r : Room) (d : Dir) : (addDoor r d).doors.flag d = true := by
  cases d <;> rfl

lemma addDoor_flag_mono (r : Room) (d dd : Dir) (h : r.doors.flag dd = true) :
    (addDoor r d).doors.flag dd = true := by
  cases d <;> cases dd <;> simpa [addDoor, Sides.withTrue, Sides.flag] using h

lemma addDoor_flag_cases (r : Room) (d dd : Dir) (h : (addDoor r d).doors.flag dd = true) :
    r.doors.flag dd = true ∨ dd = d := by
  cases d <;> cases dd <;> simp_all [addDoor, Sides.withTrue, Sides.flag]

lemma roomLe_refl (a : Room) : roomLe a a := ⟨rfl, rfl, rfl, fun _ h => h⟩

lemma roomLe_addDoor (r : Room) (d : Dir) : roomLe r (addDoor r d) :=
  ⟨rfl, rfl, rfl, fun dd h => addDoor_flag_mono r d dd h⟩

lemma doorLinked_mono {a a' b b' : Room} (hab : doorLinked a b)
    (ha : roomLe a a') (hb : roomLe b b') : doorLinked a' b' := by
  obtain ⟨dd, hx, hz, hda, hdb⟩ := hab
  obtain ⟨hax, haz, _, hadoors⟩ := ha
  obtain ⟨hbx, hbz, _, hbdoors⟩ := hb
  exact ⟨dd, by omega, by omega, hadoors dd hda, hbdoors dd.opposite hdb⟩

lemma doorLinked_new (src : Room) (d : Dir) :
    doorLinked (addDoor src d) (addDoor (candRoom src d) d.opposite) := by
  refine ⟨d, ?_, ?_, addDoor_flag_self src d, ?_⟩
  · have := (candRoom_fields src d).1
    simpa [addDoor] using this
  · have := (candRoom_fields src d).2.1
    simpa [addDoor] using this
  · exact addDoor_flag_self (candRoom src d) d.opposite

/-! Access lemmas for the state after an accepted placement. -/

lemma accept_rooms_length (s : GenState) (i : Nat) (hi : i < s.rooms.length) (d : Dir) :
    (acceptConnection s i hi d).rooms.length = s.rooms.length + 1 := by
  simp [acceptConnection]

lemma accept_hallways (s : GenState) (i : Nat) (hi : i < s.rooms.length) (d : Dir) :
    (acceptConnection s i hi d).hallways =
      s.hallways ++ [createHallway (s.rooms.get ⟨i, hi⟩) (candRoom (s.rooms.get ⟨i, hi⟩) d) d] :=
  rfl

lemma accept_get_of_lt (s : GenState) (i : Nat) (hi : i < s.rooms.length) (d : Dir) (k : Nat)
    (hk : k < s.rooms.length) (hk2 : k < (acceptConnection s i hi d).rooms.length) :
    (acceptConnection s i hi d).rooms[k] =
      if i = k then addDoor (s.rooms.get ⟨i, hi⟩) d else s.rooms[k] := by
  unfold acceptConnection
  rw [List.getElem_append_left (by simpa using hk)]
  by_cases hik : i = k
  · subst hik
    rw [if_pos rfl]
    exact List.getElem_set_self (by simpa using hk)
  · rw [if_neg hik]
    exact List.getElem_set_ne hik _

lemma accept_get_last (s : GenState) (i : Nat) (hi : i < s.rooms.length) (d : Dir)
    (hk2 : s.rooms.length < (acceptConnection s i hi d).rooms.length) :
    (acceptConnection s i hi d).rooms[s.rooms.length] =
      addDoor (candRoom (s.rooms.get ⟨i, hi⟩) d) d.opposite := by
  unfold acceptConnection
  rw [List.getElem_append_right (by simp)]
  simp

lemma accept_roomLe (s : GenState) (i : Nat) (hi : i < s.rooms.length) (d : Dir) (k : Nat)
    (hk : k < s.rooms.length) (hk2 : k < (acceptConnection s i hi d).rooms.length) :
    roomLe s.rooms[k] (acceptConnection s i hi d).rooms[k] := by
  rw [accept_get_of_lt s i hi d k hk hk2]
  by_cases hik : i = k
  · rw [if_pos hik]
    subst hik
    exact roomLe_addDoor _ d
  · rw [if_neg hik]
    exact roomLe_refl _

lemma genStep_cases (c : Choice) (s : GenState) :
    genStep c s = s ∨
    ∃ i d, ∃ hi : i < s.rooms.length,
      isValidRoomPosition s.rooms (candRoom (s.rooms.get ⟨i, hi⟩) d) ∧
      genStep c s = acceptConnection s i hi d := by
  unfold genStep
  by_cases hi : c.srcPick % s.rooms.length < s.rooms.length
  · rw [dif_pos hi]
    by_cases hv : isValidRoomPosition s.rooms
        (candRoom (s.rooms.get ⟨c.srcPick % s.rooms.length, hi⟩) c.dir)
    · right
      exact ⟨c.srcPick % s.rooms.length, c.dir, hi, hv, by rw [if_pos hv]⟩
    · left
      rw [if_neg hv]
  · rw [dif_neg hi]
    exact Or.inl rfl

/-! Preservation of the invariants by one generation step. -/

lemma allReach_accept (s : GenState) (i : Nat) (hi : i < s.rooms.length) (d : Dir)
    (hr : allReach s.rooms) : allReach (acceptConnection s i hi d).rooms := by
  have hlen := accept_rooms_length s i hi d
  have transfer : ∀ {j : Nat}, Reach s.rooms 0 j → Reach (acceptConnection s i hi d).rooms 0 j := by
    intro j hj
    induction hj with
    | refl => exact Reach.refl 0
    | tail hj hk hr hlink ih =>
        refine Reach.tail (by omega) (by omega) ih ?_
        exact doorLinked_mono hlink (accept_roomLe s i hi d _ hj (by omega))
          (accept_roomLe s i hi d _ hk (by omega))
  intro j hj
  rw [hlen] at hj
  rcases Nat.lt_or_ge j s.rooms.length with hlt | hge
  · exact transfer (hr j hlt)
  · have hj_eq : j = s.rooms.length := by omega
    subst hj_eq
    refine Reach.tail (j := i) (by omega) (by omega) (transfer (hr i hi)) ?_
    rw [accept_get_of_lt s i hi d i hi (by omega), if_pos rfl,
        accept_get_last s i hi d (by omega)]
    exact doorLinked_new (s.rooms.get ⟨i, hi⟩) d

lemma noOverlaps_accept (s : GenState) (i : Nat) (hi : i < s.rooms.length) (d : Dir)
    (hval : isValidRoomPosition s.rooms (candRoom (s.rooms.get ⟨i, hi⟩) d))
    (hno : noOverlaps s.rooms) : noOverlaps (acceptConnection s i hi d).rooms := by
  have hlen := accept_rooms_length s i hi d
  intro a b ha hb hab
  rcases Nat.lt_or_ge a s.rooms.length with halt | hage <;>
    rcases Nat.lt_or_ge b s.rooms.length with hblt | hbge
  · rw [accept_get_of_lt s i hi d a halt ha, accept_get_of_lt s i hi d b hblt hb]
    have hbase := hno a b halt hblt hab
    by_cases hia : i = a <;> by_cases hib : i = b
    · omega
    · rw [if_pos hia, if_neg hib]
      subst hia
      intro hov
      exact hbase ((roomsOverlap_addDoor_left _ _ d).mp hov)
    · rw [if_neg hia, if_pos hib]
      subst hib
      intro hov
      exact hbase ((roomsOverlap_addDoor_right _ _ d).mp hov)
    · rw [if_neg hia, if_neg hib]
      exact hbase
  · have hb_eq : b = s.rooms.length := by omega
    subst hb_eq
    rw [accept_get_of_lt s i hi d a halt ha, accept_get_last s i hi d hb]
    have hvalidA : ¬ roomsOverlap (candRoom (s.rooms.get ⟨i, hi⟩) d) s.rooms[a] :=
      hval _ (List.getElem_mem halt)
    by_cases hia : i = a
    · rw [if_pos hia]
      subst hia
      intro hov
      exact hvalidA ((roomsOverlap_comm _ _).mp
        ((roomsOverlap_addDoor_left _ _ d).mp
          ((roomsOverlap_addDoor_right _ _ d.opposite).mp hov)))
    · rw [if_neg hia]
      intro hov
      exact hvalidA ((roomsOverlap_comm _ _).mp
        ((roomsOverlap_addDoor_right _ _ d.opposite).mp hov))
  · have ha_eq : a = s.rooms.length := by omega
    subst ha_eq
    rw [accept_get_last s i hi d ha, accept_get_of_lt s i hi d b hblt hb]
    have hvalidB : ¬ roomsOverlap (candRoom (s.rooms.get ⟨i, hi⟩) d) s.rooms[b] :=
      hval _ (List.getElem_mem hblt)
    by_cases hib : i = b
    · rw [if_pos hib]
      subst hib
      intro hov
      exact hvalidB ((roomsOverlap_addDoor_right _ _ d).mp
        ((roomsOverlap_addDoor_left _ _ d.opposite).mp hov))
    · rw [if_neg hib]
      intro hov
      exact hvalidB ((roomsOverlap_addDoor_left _ _ d.opposite).mp hov)
  · omega

lemma doorSym_accept (s : GenState) (i : Nat) (hi : i < s.rooms.length) (d : Dir)
    (hsym : doorSym s.rooms) : doorSym (acceptConnection s i hi d).rooms := by
  have hlen := accept_rooms_length s i hi d
  have hsrc : s.rooms.get ⟨i, hi⟩ = s.rooms[i] := rfl
  -- lift an old partner into the new list
  have lift : ∀ k (hk : k < s.rooms.length) (dd : Dir), s.rooms[k].doors.flag dd = true →
      ∃ l, ∃ hl : l < (acceptConnection s i hi d).rooms.length,
        (acceptConnection s i hi d).rooms[l].x = s.rooms[k].x + (dirOff dd).1 ∧
        (acceptConnection s i hi d).rooms[l].z = s.rooms[k].z + (dirOff dd).2 ∧
        (acceptConnection s i hi d).rooms[l].doors.flag dd.opposite = true := by
    intro k hk dd hdd
    obtain ⟨l, hl, hx, hz, hdl⟩ := hsym k hk dd hdd
    have hle := accept_roomLe s i hi d l hl (by omega)
    obtain ⟨hlx, hlz, _, hldoors⟩ := hle
    exact ⟨l, by omega, by omega, by omega, hldoors dd.opposite hdl⟩
  intro k hk dd hdd
  rw [hlen] at hk
  rcases Nat.lt_or_ge k s.rooms.length with hklt | hkge
  · have hgetk := accept_get_of_lt s i hi d k hklt (by omega)
    by_cases hik : i = k
    · subst hik
      rw [hgetk, if_pos rfl] at hdd
      rcases addDoor_flag_cases _ d dd hdd with hold | hnew
      · obtain ⟨l, hl, hx, hz, hdl⟩ := lift i hi dd hold
        refine ⟨l, hl, ?_, ?_, hdl⟩
        · rw [hgetk, if_pos rfl]
          simpa [addDoor] using hx
        · rw [hgetk, if_pos rfl]
          simpa [addDoor] using hz
      · subst hnew
        refine ⟨s.rooms.length, by omega, ?_, ?_, ?_⟩
        · rw [accept_get_last s i hi dd (by omega), hgetk, if_pos rfl]
          have h1 := (candRoom_fields (s.rooms.get ⟨i, hi⟩) dd).1
          simpa [addDoor] using h1
        · rw [accept_get_last s i hi dd (by omega), hgetk, if_pos rfl]
          have h2 := (candRoom_fields (s.rooms.get ⟨i, hi⟩) dd).2.1
          simpa [addDoor] using h2
        · rw [accept_get_last s i hi dd (by omega)]
          exact addDoor_flag_self _ dd.opposite
    · rw [hgetk, if_neg hik] at hdd
      obtain ⟨l, hl, hx, hz, hdl⟩ := lift k hklt dd hdd
      refine ⟨l, hl, ?_, ?_, hdl⟩
      · rw [hgetk, if_neg hik]; exact hx
      · rw [hgetk, if_neg hik]; exact hz
  · have hk_eq : k = s.rooms.length := by omega
    subst hk_eq
    rw [accept_get_last s i hi d (by omega)] at hdd
    rcases addDoor_flag_cases _ d.opposite dd hdd with hold | hnew
    · rw [candRoom_doors] at hold
      exact absurd hold (by simp)
    · subst hnew
      refine ⟨i, by omega, ?_, ?_, ?_⟩
      · rw [accept_get_of_lt s i hi d i hi (by omega), if_pos rfl,
            accept_get_last s i hi d (by omega)]
        have h1 := (candRoom_fields (s.rooms.get ⟨i, hi⟩) d).1
        have h2 := (dirOff_opposite d).1
        simp only [addDoor]
        omega
      · rw [accept_get_of_lt s i hi d i hi (by omega), if_pos rfl,
            accept_get_last s i hi d (by omega)]
        have h1 := (candRoom_fields (s.rooms.get ⟨i, hi⟩) d).2.1
        have h2 := (dirOff_opposite d).2
        simp only [addDoor]
        omega
      · rw [accept_get_of_lt s i hi d i hi (by omega), if_pos rfl, opposite_opposite]
        exact addDoor_flag_self _ d

/-! Loop-level preservation and size bounds. -/

lemma genLoop_inv (target : Nat) (P : GenState → Prop)
    (hstep : ∀ c s, P s → P (genStep c s)) :
    ∀ (cs : List Choice) (s : GenState), P s → P (genLoop target cs s) := by
  intro cs
  induction cs with
  | nil => intro s hs; exact hs
  | cons c cs ih =>
      intro s hs
      unfold genLoop
      by_cases h : s.rooms.length < target
      · rw [if_pos h]; exact ih _ (hstep c s hs)
      · rw [if_neg h]; exact hs

lemma genStep_length (c : Choice) (s : GenState) :
    (genStep c s).rooms.length = s.rooms.length ∨
    (genStep c s).rooms.length = s.rooms.length + 1 := by
  rcases genStep_cases c s with h | ⟨i, d, hi, _, h⟩
  · left; rw [h]
  · right; rw [h, accept_rooms_length]

lemma genLoop_length_le_target (target : Nat) :
    ∀ (cs : List Choice) (s : GenState), s.rooms.length ≤ max 1 target →
      (genLoop target cs s).rooms.length ≤ max 1 target := by
  intro cs
  induction cs with
  | nil => intro s hs; exact hs
  | cons c cs ih =>
      intro s hs
      unfold genLoop
      by_cases h : s.rooms.length < target
      · rw [if_pos h]
        refine ih _ ?_
        rcases genStep_length c s with he | he <;> rw [he] <;> omega
      · rw [if_neg h]; exact hs

lemma genLoop_length_le_budget (target : Nat) :
    ∀ (cs : List Choice) (s : GenState),
      (genLoop target cs s).rooms.length ≤ s.rooms.length + cs.length := by
  intro cs
  induction cs with
  | nil => intro s; simp [genLoop]
  | cons c cs ih =>
      intro s
      unfold genLoop
      by_cases h : s.rooms.length < target
      · rw [if_pos h]
        have := ih (genStep c s)
        rcases genStep_length c s with he | he <;> rw [he] at this <;>
          simpa [Nat.add_comm, Nat.add_assoc, Nat.add_left_comm] using this.trans (by omega)
      · rw [if_neg h]; simp

/-- Positive room count is preserved by the loop. -/
lemma genLoop_length_pos (target : Nat) :
    ∀ (cs : List Choice) (s : GenState), 0 < s.rooms.length →
      0 < (genLoop target cs s).rooms.length := by
  have : ∀ c s, 0 < (s : GenState).rooms.length → 0 < (genStep c s).rooms.length := by
    intro c s hs
    rcases genStep_length c s with he | he <;> omega
  intro cs s hs
  exact genLoop_inv target (fun s => 0 < s.rooms.length) this cs s hs

/-- The room at index 0 keeps the seed footprint: the origin and the fixed
room size (connections only flip its door and wall flags). -/
def headSeedOk (s : GenState) : Prop :=
  ∀ h0 : 0 < s.rooms.length, s.rooms[0].x = 0 ∧ s.rooms[0].z = 0 ∧ s.rooms[0].size = roomSize

lemma headSeedOk_step (c : Choice) (s : GenState) (hs : headSeedOk s) :
    headSeedOk (genStep c s) := by
  rcases genStep_cases c s with h | ⟨i, d, hi, _, h⟩
  · rw [h]; exact hs
  · rw [h]
    intro h0
    have h0' : 0 < s.rooms.length := by omega
    have hle := accept_roomLe s i hi d 0 h0' (by rw [accept_rooms_length]; omega)
    obtain ⟨hx, hz, hsz, _⟩ := hle
    have := hs h0'
    exact ⟨by omega, by omega, by omega⟩

/-- Hallway shape: the along-axis extent is exactly the room spacing and the
cross-axis extent is the hallway width. -/
def hallwaySpansGap (h : Hallway) : Prop :=
  (h.direction = .horizontal → h.width = roomSpacing ∧ h.depth = hallwayWidth) ∧
  (h.direction = .vertical → h.width = hallwayWidth ∧ h.depth = roomSpacing)

lemma createHallway_spans (src : Room) (d : Dir) :
    hallwaySpansGap (createHallway src (candRoom src d) d) := by
  cases d <;>
    constructor <;>
      intro hdir <;>
        simp_all [createHallway, candRoom, candidatePos, createRoom, hallwaySpansGap,
          roomSize, roomSpacing, hallwayWidth] <;>
        omega

/-- Count and shape invariant for hallways: one hallway per non-seed room,
each spanning exactly the spacing gap. -/
def hallwaysOk (s : GenState) : Prop :=
  s.hallways.length + 1 = s.rooms.length ∧ ∀ h ∈ s.hallways, hallwaySpansGap h

lemma hallwaysOk_step (c : Choice) (s : GenState) (hs : hallwaysOk s) :
    hallwaysOk (genStep c s) := by
  rcases genStep_cases c s with h | ⟨i, d, hi, _, h⟩
  · rw [h]; exact hs
  · rw [h]
    obtain ⟨hcount, hall⟩ := hs
    constructor
    · rw [accept_rooms_length, accept_hallways]
      simp only [List.length_append, List.length_cons, List.length_nil]
      omega
    · intro hw hmem
      rw [accept_hallways] at hmem
      rcases List.mem_append.mp hmem with hold | hnew
      · exact hall hw hold
      · rw [List.mem_singleton.mp hnew]
        exact createHallway_spans _ d

lemma allReach_step (c : Choice) (s : GenState) (hs : allReach s.rooms) :
    allReach (genStep c s).rooms := by
  rcases genStep_cases c s with h | ⟨i, d, hi, _, h⟩
  · rw [h]; exact hs
  · rw [h]; exact allReach_accept s i hi d hs

lemma noOverlaps_step (c : Choice) (s : GenState) (hs : noOverlaps s.rooms) :
    noOverlaps (genStep c s).rooms := by
  rcases genStep_cases c s with h | ⟨i, d, hi, hval, h⟩
  · rw [h]; exact hs
  · rw [h]; exact noOverlaps_accept s i hi d hval hs

lemma doorSym_step (c : Choice) (s : GenState) (hs : doorSym s.rooms) :
    doorSym (genStep c s).rooms := by
  rcases genStep_cases c s with h | ⟨i, d, hi, _, h⟩
  · rw [h]; exact hs
  · rw [h]; exact doorSym_accept s i hi d hs

/-! Initial state facts and the assembled generator invariants. -/

lemma seedState_allReach : allReach [createRoom 0 0 0] := by
  intro j hj
  have : j = 0 := by simpa using hj
  subst this
  exact Reach.refl 0

lemma seedState_noOverlaps : noOverlaps [createRoom 0 0 0] := by
  intro i j hi hj hij
  simp only [List.length_singleton] at hi hj
  omega

lemma seedState_doorSym : doorSym [createRoom 0 0 0] := by
  intro k hk dd hdd
  simp only [List.length_singleton] at hk
  have hk0 : k = 0 := by omega
  subst hk0
  rw [show ([createRoom 0 0 0])[0] = createRoom 0 0 0 from rfl] at hdd
  cases dd <;> simp [createRoom, Sides.flag] at hdd

lemma generateDungeon_rooms_eq (choices : List Choice) (target : Nat) :
    (generateDungeon choices target).rooms = (genLoop target choices ⟨[createRoom 0 0 0], []⟩).rooms :=
  rfl

lemma generateDungeon_allReach (choices : List Choice) (target : Nat) :
    allReach (generateDungeon choices target).rooms := by
  rw [generateDungeon_rooms_eq]
  exact genLoop_inv target (fun s => allReach s.rooms) allReach_step choices _ seedState_allReach

lemma generateDungeon_noOverlaps (choices : List Choice) (target : Nat) :
    noOverlaps (generateDungeon choices target).rooms := by
  rw [generateDungeon_rooms_eq]
  exact genLoop_inv target (fun s => noOverlaps s.rooms) noOverlaps_step choices _ seedState_noOverlaps

lemma generateDungeon_doorSym (choices : List Choice) (target : Nat) :
    doorSym (generateDungeon choices target).rooms := by
  rw [generateDungeon_rooms_eq]
  exact genLoop_inv target (fun s => doorSym s.rooms) doorSym_step choices _ seedState_doorSym

lemma generateDungeon_headSeed (choices : List Choice) (target : Nat) :
    ∀ h0 : 0 < (generateDungeon choices target).rooms.length,
      (generateDungeon choices target).rooms[0].x = 0 ∧
      (generateDungeon choices target).rooms[0].z = 0 ∧
      (generateDungeon choices target).rooms[0].size = roomSize := by
  have h := genLoop_inv target headSeedOk headSeedOk_step choices ⟨[createRoom 0 0 0], []⟩
    (by intro h0; exact ⟨rfl, rfl, rfl⟩)
  exact h

lemma generateDungeon_hallwaysOk (choices : List Choice) (target : Nat) :
    (generateDungeon choices target).hallways.length + 1 =
        (generateDungeon choices target).rooms.length ∧
    ∀ h ∈ (generateDungeon choices target).hallways, hallwaySpansGap h := by
  have h := genLoop_inv target hallwaysOk hallwaysOk_step choices ⟨[createRoom 0 0 0], []⟩
    ⟨rfl, by intro h hmem; exact absurd hmem (List.not_mem_nil h)⟩
  exact h

/-- C1: every layout returned by the simple-variant generator has every room
reachable from the seed room (index 0, placed at the origin) through the
door connections recorded during generation, for every outcome of the random
choices, including partial layouts produced when the attempt budget (the
choice list) runs out. -/
theorem generateDungeon_connected (choices : List Choice) (target : Nat)
    (j : Nat) (hj : j < (generateDungeon choices target).rooms.length) :
    Reach (generateDungeon choices target).rooms 0 j :=
  generateDungeon_allReach choices target j hj

theorem generateDungeon_connected_witness :
    Reach (generateDungeon [⟨0, .east⟩] 8).rooms 0 1 :=
  generateDungeon_connected [⟨0, .east⟩] 8 1 (by decide)

/-- C2: in every layout returned by the simple-variant generator, the square
footprints of any two distinct rooms, each expanded symmetrically by the
configured spacing, do not overlap; overlap would require simultaneous
overlap on the x and z axes, which the generator's acceptance test excludes. -/
theorem generateDungeon_no_overlap (choices : List Choice) (target : Nat)
    (i j : Nat) (hi : i < (generateDungeon choices target).rooms.length)
    (hj : j < (generateDungeon choices target).rooms.length) (hne : i ≠ j) :
    ¬ roomsOverlap (generateDungeon choices target).rooms[i]
        (generateDungeon choices target).rooms[j] ∧
    ¬ symmetricExpandedOverlap (generateDungeon choices target).rooms[i]
        (generateDungeon choices target).rooms[j] := by
  have h := generateDungeon_noOverlaps choices target i j hi hj hne
  exact ⟨h, fun hover => h ((roomsOverlap_iff_symmetricExpanded _ _).mpr hover)⟩

theorem generateDungeon_no_overlap_witness :
    ¬ roomsOverlap (generateDungeon [⟨0, .east⟩] 8).rooms[0]
        ((generateDungeon [⟨0, .east⟩] 8).rooms.get ⟨1, by decide⟩) ∧
    ¬ symmetricExpandedOverlap (generateDungeon [⟨0, .east⟩] 8).rooms[0]
        ((generateDungeon [⟨0, .east⟩] 8).rooms.get ⟨1, by decide⟩) :=
  generateDungeon_no_overlap [⟨0, .east⟩] 8 0 1 (by decide) (by decide) (by decide)

/-- C9: generateDungeon is a total function (it always terminates and never
throws): the placement loop consumes at most one choice per attempt, the
returned layout has at least one room (the seed) and at most the configured
room count, the spawn point is the seed room's center at the fixed player
height 1.5, and with a room count of 1 and an empty attempt budget the
result is exactly the seed room with no hallways; exhausting the budget
yields the partial layout as a normal return value. -/
theorem generateDungeon_total_shape (choices : List Choice) (target : Nat)
    (htarget : 1 ≤ target) :
    (1 ≤ (generateDungeon choices target).rooms.length ∧
     (generateDungeon choices target).rooms.length ≤ target ∧
     (generateDungeon choices target).rooms.length ≤ 1 + choices.length) ∧
    ((generateDungeon choices target).spawnPoint = (15, 3 / 2, 15)) ∧
    (∀ h0 : 0 < (generateDungeon choices target).rooms.length,
       (generateDungeon choices target).spawnPoint =
         (((generateDungeon choices target).rooms[0].x : ℚ) +
            ((generateDungeon choices target).rooms[0].size : ℚ) / 2,
          (3 : ℚ) / 2,
          ((generateDungeon choices target).rooms[0].z : ℚ) +
            ((generateDungeon choices target).rooms[0].size : ℚ) / 2)) ∧
    (generateDungeon [] 1).rooms = [createRoom 0 0 0] ∧
    (generateDungeon [] 1).hallways = [] := by
  have hpos : 0 < (generateDungeon choices target).rooms.length := by
    rw [generateDungeon_rooms_eq]
    exact genLoop_length_pos target choices _ (by simp)
  have hle : (generateDungeon choices target).rooms.length ≤ target := by
    rw [generateDungeon_rooms_eq]
    have := genLoop_length_le_target target choices ⟨[createRoom 0 0 0], []⟩ (by simp)
    omega
  have hbudget : (generateDungeon choices target).rooms.length ≤ 1 + choices.length := by
    rw [generateDungeon_rooms_eq]
    have := genLoop_length_le_budget target choices ⟨[createRoom 0 0 0], []⟩
    simpa [Nat.add_comm] using this
  refine ⟨⟨hpos, hle, hbudget⟩, ?_, ?_, rfl, rfl⟩
  · show ((((0 : Int) : ℚ) + ((30 : Int) : ℚ) / 2, (3 : ℚ) / 2, ((0 : Int) : ℚ) + ((30 : Int) : ℚ) / 2) :
      ℚ × ℚ × ℚ) = (15, 3 / 2, 15)
    norm_num
  · intro h0
    obtain ⟨hx, hz, hsz⟩ := generateDungeon_headSeed choices target h0
    rw [hx, hz, hsz]
    show ((((0 : Int) : ℚ) + ((30 : Int) : ℚ) / 2, (3 : ℚ) / 2, ((0 : Int) : ℚ) + ((30 : Int) : ℚ) / 2) :
      ℚ × ℚ × ℚ) = _
    norm_num [roomSize]

theorem generateDungeon_total_shape_witness :
    1 ≤ (generateDungeon [] 8).rooms.length ∧
    (generateDungeon [] 8).rooms.length ≤ 8 ∧
    (generateDungeon [] 8).spawnPoint = (15, 3 / 2, 15) :=
  ⟨(generateDungeon_total_shape [] 8 (by decide)).1.1,
   (generateDungeon_total_shape [] 8 (by decide)).1.2.1,
   (generateDungeon_total_shape [] 8 (by decide)).2.1⟩

/-- C10: in the simple generator every accepted placement appends exactly one
room and one hallway, so every returned layout has one fewer hallway than
rooms, and each hallway spans exactly the spacing gap between its two rooms:
its along-axis extent is the room spacing and its cross-axis extent is the
hallway width. -/
theorem generateDungeon_hallway_count_extent (choices : List Choice) (target : Nat) :
    (generateDungeon choices target).hallways.length + 1 =
        (generateDungeon choices target).rooms.length ∧
    ∀ h ∈ (generateDungeon choices target).hallways, hallwaySpansGap h :=
  generateDungeon_hallwaysOk choices target

theorem generateDungeon_hallway_count_extent_witness :
    (generateDungeon [⟨0, .east⟩] 8).hallways.length + 1 =
        (generateDungeon [⟨0, .east⟩] 8).rooms.length ∧
    hallwaySpansGap (createHallway (createRoom 0 0 0) (candRoom (createRoom 0 0 0) .east) .east) :=
  ⟨(generateDungeon_hallway_count_extent [⟨0, .east⟩] 8).1,
   (generateDungeon_hallway_count_extent [⟨0, .east⟩] 8).2 _ (by decide)⟩

/-!
Part 2: the richer generator variant (the client-side DungeonGenerator with
adjacency backfill). Rooms carry only x, z, size and door flags. The
direction shuffle of each attempt is modelled by an oracle list of
directions tried in order; the source always produces a permutation of the
four directions, so the oracle ranges over a superset of the reachable
draws, which is sound for the invariants proved here. Distance comparisons
go through squared distances, which order the same as the square roots the
source compares. The rendering part (createWalls, lights, textures) builds
meshes only and never touches rooms or hallways, so it is not modelled.
-/

/-- Room record of the richer variant. -/
structure CRoom where
  x : Int
  z : Int
  size : Int
  doors : Sides
deriving DecidableEq, Repr

/-- Hallway record of the richer variant; positions are rational because a
hallway is centered on its room side, at an offset of (size - width) / 2. -/
structure CHallway where
  x : ℚ
  z : ℚ
  width : ℚ
  depth : ℚ
  direction : Dir
deriving DecidableEq, Repr

/-- Target room count of the richer variant (roomCount = 15). -/
def cRoomCount : Nat := 15

/-- Room size of the richer variant (roomSize = 72). -/
def cRoomSize : Int := 72

/-- Hallway width of the richer variant (hallwayWidth = 9). -/
def cHallwayWidth : ℚ := 9

/-- Hallway length of the richer variant (hallwayLength = 48). -/
def cHallwayLength : Int := 48

/-- minSpacing local of generateDungeon: roomSize * 0.5. -/
def cMinSpacing : ℚ := (cRoomSize : ℚ) * (1 / 2)

/-- Default room used to totalize out-of-range list reads that the source
can never perform. -/
def cDefaultRoom : CRoom := ⟨0, 0, 0, ⟨false, false, false, false⟩⟩

/-- Number of door flags set on a room (Object.values(doors).filter(Boolean)). -/
def countDoors (s : Sides) : Nat :=
  (if s.north then 1 else 0) + (if s.south then 1 else 0) +
  (if s.east then 1 else 0) + (if s.west then 1 else 0)

/-- Squared distance from the origin; the source compares Math.sqrt of these,
and strict comparison of square roots of nonnegative values agrees with
strict comparison of the squares. -/
def distSq (r : CRoom) : Int := r.x * r.x + r.z * r.z

/-- findSuitableSourceRoom, phrased on indices: filter the rooms with fewer
than four connections, then reduce preferring fewer connections and, on
ties, larger distance from the origin; returns the index of the chosen room
(the source returns the reference, and on ties reduce keeps the earlier
one, as the index fold does). -/
def cPickSource (rooms : List CRoom) : Option Nat :=
  match (List.range rooms.length).filter
      (fun i => decide (countDoors (rooms.getD i cDefaultRoom).doors < 4)) with
  | [] => none
  | a :: rest =>
      some (rest.foldl (fun best cur =>
        let bR := rooms.getD best cDefaultRoom
        let cR := rooms.getD cur cDefaultRoom
        if countDoors cR.doors < countDoors bR.doors then cur
        else if countDoors cR.doors = countDoors bR.doors ∧ distSq cR > distSq bR then cur
        else best) a)

/-- Origin displacement of a room placed in a direction in the richer
variant: one room size plus one hallway length along the axis. -/
def cDirOff : Dir → Int × Int
  | .north => (0, -(cRoomSize + cHallwayLength))
  | .south => (0, cRoomSize + cHallwayLength)
  | .east => (cRoomSize + cHallwayLength, 0)
  | .west => (-(cRoomSize + cHallwayLength), 0)

/-- Candidate position switch of findValidRoomPosition. -/
def cCandidatePos (src : CRoom) : Dir → Int × Int
  | .north => (src.x, src.z - cRoomSize - cHallwayLength)
  | .south => (src.x, src.z + cRoomSize + cHallwayLength)
  | .east => (src.x + cRoomSize + cHallwayLength, src.z)
  | .west => (src.x - cRoomSize - cHallwayLength, src.z)

/-- isValidRoomPosition of the richer variant: the candidate must not be
within roomSize + minSpacing * 0.8 = 100.8 of an existing room on both axes
at once. Math.abs is modelled by natAbs and the fractional bound is kept
exact by scaling both sides by 5 (504 = 5 * 100.8), see cValid_scale. -/
def cIsValidRoomPosition (rooms : List CRoom) (x z : Int) : Prop :=
  ∀ room ∈ rooms,
    ¬ ((5 * ((x - room.x).natAbs : Int) < 504) ∧
       (5 * ((z - room.z).natAbs : Int) < 504))

instance (rooms : List CRoom) (x z : Int) : Decidable (cIsValidRoomPosition rooms x z) :=
  List.decidableBAll _ rooms

/-- The scaled integer comparison used by cIsValidRoomPosition is exactly the
source's comparison against roomSize + minSpacing * 0.8. -/
lemma cValid_scale (n : Nat) :
    (5 * (n : Int) < 504) ↔ ((n : ℚ) < (cRoomSize : ℚ) + cMinSpacing * (4 / 5)) := by
  have hb : (cRoomSize : ℚ) + cMinSpacing * (4 / 5) = 504 / 5 := by
    norm_num [cRoomSize, cMinSpacing]
  rw [hb]
  constructor
  · intro h
    have h5 : ((5 * (n : Int) : Int) : ℚ) < ((504 : Int) : ℚ) := by exact_mod_cast h
    push_cast at h5
    linarith
  · intro h
    have h5 : (5 : ℚ) * (n : ℚ) < 504 := by linarith
    exact_mod_cast h5

/-- findValidRoomPosition: walk the shuffled directions, skip sides that
already carry a door, and return the first direction whose candidate
position is valid, together with that position. -/
def cFindValidRoomPosition (rooms : List CRoom) (src : CRoom) :
    List Dir → Option (Dir × Int × Int)
  | [] => none
  | d :: rest =>
      if src.doors.flag d then cFindValidRoomPosition rooms src rest
      else
        if cIsValidRoomPosition rooms (cCandidatePos src d).1 (cCandidatePos src d).2
        then some (d, (cCandidatePos src d).1, (cCandidatePos src d).2)
        else cFindValidRoomPosition rooms src rest

/-- areRoomsAdjacent: exactly one roomSize + hallwayLength apart on one axis
and aligned on the other. -/
def areRoomsAdjacent (r1 r2 : CRoom) : Prop :=
  ((r1.x - r2.x).natAbs = (cRoomSize + cHallwayLength).natAbs ∧ (r1.z - r2.z).natAbs = 0) ∨
  ((r1.z - r2.z).natAbs = (cRoomSize + cHallwayLength).natAbs ∧ (r1.x - r2.x).natAbs = 0)

instance (r1 r2 : CRoom) : Decidable (areRoomsAdjacent r1 r2) := by
  unfold areRoomsAdjacent; infer_instance

/-- getAdjacentDirection: the if chain on the signed coordinate differences. -/
def getAdjacentDirection (r1 r2 : CRoom) : Option Dir :=
  if r1.x - r2.x = cRoomSize + cHallwayLength then some .west
  else if r1.x - r2.x = -(cRoomSize + cHallwayLength) then some .east
  else if r1.z - r2.z = cRoomSize + cHallwayLength then some .north
  else if r1.z - r2.z = -(cRoomSize + cHallwayLength) then some .south
  else none

/-- Door half of the richer createConnection for one room. -/
def cAddDoor (r : CRoom) (d : Dir) : CRoom :=
  { r with doors := r.doors.withTrue d }

/-- createHallway of the richer variant; it reads only the source room and
the direction (the target coordinates are accepted and ignored, as in the
source). -/
def cCreateHallway (sourceRoom : CRoom) (direction : Dir) (targetX targetZ : Int) : CHallway :=
  match direction with
  | .north =>
      { x := (sourceRoom.x : ℚ) + ((sourceRoom.size : ℚ) - cHallwayWidth) / 2,
        z := (sourceRoom.z : ℚ) - (cHallwayLength : ℚ),
        width := cHallwayWidth, depth := (cHallwayLength : ℚ), direction := .north }
  | .south =>
      { x := (sourceRoom.x : ℚ) + ((sourceRoom.size : ℚ) - cHallwayWidth) / 2,
        z := (sourceRoom.z : ℚ) + (sourceRoom.size : ℚ),
        width := cHallwayWidth, depth := (cHallwayLength : ℚ), direction := .south }
  | .east =>
      { x := (sourceRoom.x : ℚ) + (sourceRoom.size : ℚ),
        z := (sourceRoom.z : ℚ) + ((sourceRoom.size : ℚ) - cHallwayWidth) / 2,
        width := (cHallwayLength : ℚ), depth := cHallwayWidth, direction := .east }
  | .west =>
      { x := (sourceRoom.x : ℚ) - (cHallwayLength : ℚ),
        z := (sourceRoom.z : ℚ) + ((sourceRoom.size : ℚ) - cHallwayWidth) / 2,
        width := (cHallwayLength : ℚ), depth := cHallwayWidth, direction := .west }

/-- createConnection of the richer variant: one hallway plus the two facing
door flags, set together by the one operation (the hallway is built first in
the source, but it reads only position fields, which the door writes leave
unchanged). -/
def cCreateConnection (room1 room2 : CRoom) (d : Dir) : CRoom × CRoom × CHallway :=
  (cAddDoor room1 d, cAddDoor room2 d.opposite, cCreateHallway room1 d room2.x room2.z)

/-- Mutable state of the richer generator. -/
structure CState where
  rooms : List CRoom
  hallways : List CHallway
deriving DecidableEq, Repr

/-- checkAdjacentRooms: scan every room other than the new room itself
(reference inequality becomes index inequality) and connect every exactly
adjacent pair, reading the current door flags as the scan mutates them. -/
def cCheckAdjacent (s : CState) (newIdx : Nat) : CState :=
  (List.range s.rooms.length).foldl (fun st i =>
    if i = newIdx then st
    else
      let nr := st.rooms.getD newIdx cDefaultRoom
      let er := st.rooms.getD i cDefaultRoom
      if areRoomsAdjacent nr er then
        match getAdjacentDirection nr er with
        | some d =>
            { rooms := (st.rooms.set newIdx (cCreateConnection nr er d).1).set i
                (cCreateConnection nr er d).2.1,
              hallways := st.hallways ++ [(cCreateConnection nr er d).2.2] }
        | none => st
      else st) s

/-- One iteration of the richer generation loop: choose a source room,
find a valid direction among the oracle's shuffled directions, push the new
doorless room, connect it to the source, then backfill adjacency
connections. Iterations that find no source or no position leave the state
unchanged (the attempt is still consumed). -/
def cGenStep (shuffled : List Dir) (s : CState) : CState :=
  match cPickSource s.rooms with
  | none => s
  | some si =>
      match cFindValidRoomPosition s.rooms (s.rooms.getD si cDefaultRoom) shuffled with
      | none => s
      | some (d, nx, nz) =>
          cCheckAdjacent
            { rooms := ((s.rooms ++ [(⟨nx, nz, cRoomSize, ⟨false, false, false, false⟩⟩ : CRoom)]).set si
                  (cCreateConnection (s.rooms.getD si cDefaultRoom)
                    (⟨nx, nz, cRoomSize, ⟨false, false, false, false⟩⟩ : CRoom) d).1).set
                s.rooms.length
                (cCreateConnection (s.rooms.getD si cDefaultRoom)
                  (⟨nx, nz, cRoomSize, ⟨false, false, false, false⟩⟩ : CRoom) d).2.1,
              hallways := s.hallways ++ [(cCreateConnection (s.rooms.getD si cDefaultRoom)
                (⟨nx, nz, cRoomSize, ⟨false, false, false, false⟩⟩ : CRoom) d).2.2] }
            s.rooms.length

/-- The richer while loop; one oracle entry per attempt. -/
def cGenLoop (target : Nat) : List (List Dir) → CState → CState
  | [], s => s
  | c :: cs, s =>
      if s.rooms.length < target then cGenLoop target cs (cGenStep c s) else s

/-- generateDungeon of the richer variant: central room at the origin, then
the placement loop (createWalls builds render meshes only and is omitted). -/
def cGenerateDungeon (choices : List (List Dir)) (target : Nat) : CState :=
  cGenLoop target choices ⟨[⟨0, 0, cRoomSize, ⟨false, false, false, false⟩⟩], []⟩

example : (cGenerateDungeon [] 15).rooms.length = 1 := by decide

example : (cGenerateDungeon [[.east, .north]] 15).rooms.length = 2 := by decide

example : (cGenerateDungeon [[.east], [.east]] 15).rooms.length = 3 := by decide

/-! Door-pair invariant machinery for the richer variant. -/

lemma withTrue_flag_self (s : Sides) (d : Dir) : (s.withTrue d).flag d = true := by
  cases d <;> rfl

lemma withTrue_flag_mono (s : Sides) (d dd : Dir) (h : s.flag dd = true) :
    (s.withTrue d).flag dd = true := by
  cases d <;> cases dd <;> simpa [Sides.withTrue, Sides.flag] using h

lemma withTrue_flag_cases (s : Sides) (d dd : Dir) (h : (s.withTrue d).flag dd = true) :
    s.flag dd = true ∨ dd = d := by
  cases d <;> cases dd <;> simp_all [Sides.withTrue, Sides.flag]

/-- Door flags of the richer variant come in symmetric pairs: a door on a
side of a room has a partner room at the exact generation offset carrying
the opposite door flag. -/
def cDoorSym (rooms : List CRoom) : Prop :=
  ∀ k, ∀ hk : k < rooms.length, ∀ dd : Dir, rooms[k].doors.flag dd = true →
    ∃ l, ∃ hl : l < rooms.length,
      rooms[l].x = rooms[k].x + (cDirOff dd).1 ∧
      rooms[l].z = rooms[k].z + (cDirOff dd).2 ∧
      rooms[l].doors.flag dd.opposite = true

lemma cDirOff_opposite (d : Dir) :
    (cDirOff d.opposite).1 = -(cDirOff d).1 ∧ (cDirOff d.opposite).2 = -(cDirOff d).2 := by
  cases d <;> exact ⟨by simp [cDirOff, Dir.opposite], by simp [cDirOff, Dir.opposite]⟩

lemma cCandidatePos_eq (src : CRoom) (d : Dir) :
    (cCandidatePos src d).1 = src.x + (cDirOff d).1 ∧
    (cCandidatePos src d).2 = src.z + (cDirOff d).2 := by
  cases d <;> refine ⟨?_, ?_⟩ <;> simp [cCandidatePos, cDirOff] <;> try omega

/-- Pointwise evolution of a room whose doors only grow. -/
def cRoomLe (a b : CRoom) : Prop :=
  a.x = b.x ∧ a.z = b.z ∧ ∀ dd : Dir, a.doors.flag dd = true → b.doors.flag dd = true

lemma cRoomLe_refl (a : CRoom) : cRoomLe a a := ⟨rfl, rfl, fun _ h => h⟩

lemma cRoomLe_addDoor (r : CRoom) (d : Dir) : cRoomLe r (cAddDoor r d) :=
  ⟨rfl, rfl, fun dd h => withTrue_flag_mono r.doors d dd h⟩

lemma get_set_set (rooms : List CRoom) (a b : Nat) (A B : CRoom) (k : Nat)
    (hk : k < rooms.length) (hk2 : k < ((rooms.set a A).set b B).length) :
    ((rooms.set a A).set b B)[k] =
      if b = k then B else if a = k then A else rooms[k] := by
  by_cases hbk : b = k
  · rw [if_pos hbk]
    subst hbk
    exact List.getElem_set_self (by simpa using hk)
  · rw [if_neg hbk, List.getElem_set_ne hbk]
    by_cases hak : a = k
    · rw [if_pos hak]
      subst hak
      exact List.getElem_set_self (by simpa using hk)
    · rw [if_neg hak]
      exact List.getElem_set_ne hak _

/-- Core preservation: setting the two facing door flags of a pair of rooms
at the exact offset keeps the door-pair invariant. -/
lemma cDoorSym_connect (rooms : List CRoom) (a b : Nat) (ha : a < rooms.length)
    (hb : b < rooms.length) (hab : a ≠ b) (d : Dir)
    (hox : rooms[b].x = rooms[a].x + (cDirOff d).1)
    (hoz : rooms[b].z = rooms[a].z + (cDirOff d).2)
    (hsym : cDoorSym rooms) :
    cDoorSym ((rooms.set a (cAddDoor rooms[a] d)).set b (cAddDoor rooms[b] d.opposite)) := by
  have hlen : ((rooms.set a (cAddDoor rooms[a] d)).set b (cAddDoor rooms[b] d.opposite)).length
      = rooms.length := by simp
  have hle : ∀ k (hk : k < rooms.length)
      (hk2 : k < ((rooms.set a (cAddDoor rooms[a] d)).set b (cAddDoor rooms[b] d.opposite)).length),
      cRoomLe rooms[k]
        ((rooms.set a (cAddDoor rooms[a] d)).set b (cAddDoor rooms[b] d.opposite))[k] := by
    intro k hk hk2
    rw [get_set_set rooms a b _ _ k hk hk2]
    by_cases hbk : b = k
    · rw [if_pos hbk]; subst hbk; exact cRoomLe_addDoor _ _
    · rw [if_neg hbk]
      by_cases hak : a = k
      · rw [if_pos hak]; subst hak; exact cRoomLe_addDoor _ _
      · rw [if_neg hak]; exact cRoomLe_refl _
  have lift : ∀ k (hk : k < rooms.length) (dd : Dir), rooms[k].doors.flag dd = true →
      ∃ l, ∃ hl : l < ((rooms.set a (cAddDoor rooms[a] d)).set b
          (cAddDoor rooms[b] d.opposite)).length,
        ((rooms.set a (cAddDoor rooms[a] d)).set b (cAddDoor rooms[b] d.opposite))[l].x
            = rooms[k].x + (cDirOff dd).1 ∧
        ((rooms.set a (cAddDoor rooms[a] d)).set b (cAddDoor rooms[b] d.opposite))[l].z
            = rooms[k].z + (cDirOff dd).2 ∧
        ((rooms.set a (cAddDoor rooms[a] d)).set b
            (cAddDoor rooms[b] d.opposite))[l].doors.flag dd.opposite = true := by
    intro k hk dd hdd
    obtain ⟨l, hl, hx, hz, hdl⟩ := hsym k hk dd hdd
    obtain ⟨hlx, hlz, hldoors⟩ := hle l hl (by omega)
    exact ⟨l, by omega, by omega, by omega, hldoors dd.opposite hdl⟩
  intro k hk dd hdd
  rw [hlen] at hk
  have hgetk := get_set_set rooms a b (cAddDoor rooms[a] d) (cAddDoor rooms[b] d.opposite) k hk
    (by omega)
  by_cases hbk : b = k
  · subst hbk
    rw [hgetk, if_pos rfl] at hdd
    rcases withTrue_flag_cases _ d.opposite dd hdd with hold | hnew
    · obtain ⟨l, hl, hx, hz, hdl⟩ := lift b hk dd hold
      refine ⟨l, hl, ?_, ?_, hdl⟩
      · rw [hgetk, if_pos rfl]
        simpa [cAddDoor] using hx
      · rw [hgetk, if_pos rfl]
        simpa [cAddDoor] using hz
    · subst hnew
      have hgeta := get_set_set rooms a b (cAddDoor rooms[a] d) (cAddDoor rooms[b] d.opposite) a ha
        (by omega)
      refine ⟨a, by omega, ?_, ?_, ?_⟩
      · rw [hgeta, if_neg (by omega), if_pos rfl, hgetk, if_pos rfl]
        have h2 := (cDirOff_opposite d).1
        simp only [cAddDoor]
        omega
      · rw [hgeta, if_neg (by omega), if_pos rfl, hgetk, if_pos rfl]
        have h2 := (cDirOff_opposite d).2
        simp only [cAddDoor]
        omega
      · rw [hgeta, if_neg (by omega), if_pos rfl, opposite_opposite]
        exact withTrue_flag_self _ d
  · rw [hgetk, if_neg hbk] at hdd
    by_cases hak : a = k
    · subst hak
      rw [if_pos rfl] at hdd
      rcases withTrue_flag_cases _ d dd hdd with hold | hnew
      · obtain ⟨l, hl, hx, hz, hdl⟩ := lift a hk dd hold
        refine ⟨l, hl, ?_, ?_, hdl⟩
        · rw [hgetk, if_neg hbk, if_pos rfl]
          simpa [cAddDoor] using hx
        · rw [hgetk, if_neg hbk, if_pos rfl]
          simpa [cAddDoor] using hz
      · subst hnew
        have hgetb := get_set_set rooms a b (cAddDoor rooms[a] dd) (cAddDoor rooms[b] dd.opposite)
          b hb (by omega)
        refine ⟨b, by omega, ?_, ?_, ?_⟩
        · rw [hgetb, if_pos rfl, hgetk, if_neg hbk, if_pos rfl]
          simp only [cAddDoor]
          omega
        · rw [hgetb, if_pos rfl, hgetk, if_neg hbk, if_pos rfl]
          simp only [cAddDoor]
          omega
        · rw [hgetb, if_pos rfl]
          exact withTrue_flag_self _ dd.opposite
    · rw [if_neg hak] at hdd
      obtain ⟨l, hl, hx, hz, hdl⟩ := lift k hk dd hdd
      refine ⟨l, hl, ?_, ?_, hdl⟩
      · rw [hgetk, if_neg hbk, if_neg hak]; exact hx
      · rw [hgetk, if_neg hbk, if_neg hak]; exact hz

/-- Appending a room with no doors keeps the door-pair invariant. -/
lemma cDoorSym_append_doorless (rooms : List CRoom) (r : CRoom)
    (hr : ∀ dd : Dir, r.doors.flag dd = false) (hsym : cDoorSym rooms) :
    cDoorSym (rooms ++ [r]) := by
  intro k hk dd hdd
  have hlen : (rooms ++ [r]).length = rooms.length + 1 := by simp
  rw [hlen] at hk
  rcases Nat.lt_or_ge k rooms.length with hklt | hkge
  · rw [List.getElem_append_left hklt] at hdd
    obtain ⟨l, hl, hx, hz, hdl⟩ := hsym k hklt dd hdd
    refine ⟨l, by omega, ?_, ?_, ?_⟩
    · rw [List.getElem_append_left hl, List.getElem_append_left hklt]; exact hx
    · rw [List.getElem_append_left hl, List.getElem_append_left hklt]; exact hz
    · rw [List.getElem_append_left hl]; exact hdl
  · have hk_eq : k = rooms.length := by omega
    subst hk_eq
    rw [List.getElem_append_right (Nat.le_refl _)] at hdd
    simp only [Nat.sub_self] at hdd
    rw [show ([r] : List CRoom)[0] = r from rfl] at hdd
    rw [hr dd] at hdd
    exact absurd hdd (by simp)

/-- A successful adjacency probe pins the second room to the exact offset of
the reported direction from the first. -/
lemma adj_offset (r1 r2 : CRoom) (d : Dir) (hadj : areRoomsAdjacent r1 r2)
    (hdir : getAdjacentDirection r1 r2 = some d) :
    r2.x = r1.x + (cDirOff d).1 ∧ r2.z = r1.z + (cDirOff d).2 := by
  unfold areRoomsAdjacent at hadj
  unfold getAdjacentDirection at hdir
  unfold cRoomSize cHallwayLength at hadj hdir
  split at hdir
  · cases hdir
    simp only [cDirOff, cRoomSize, cHallwayLength]
    omega
  · split at hdir
    · cases hdir
      simp only [cDirOff, cRoomSize, cHallwayLength]
      omega
    · split at hdir
      · cases hdir
        simp only [cDirOff, cRoomSize, cHallwayLength]
        omega
      · split at hdir
        · cases hdir
          simp only [cDirOff, cRoomSize, cHallwayLength]
          omega
        · cases hdir

/-- The position returned by findValidRoomPosition is the candidate position
of the returned direction. -/
lemma cFind_eq (rooms : List CRoom) (src : CRoom) :
    ∀ (dirs : List Dir) (d : Dir) (nx nz : Int),
      cFindValidRoomPosition rooms src dirs = some (d, nx, nz) →
      nx = src.x + (cDirOff d).1 ∧ nz = src.z + (cDirOff d).2 := by
  intro dirs
  induction dirs with
  | nil =>
      intro d nx nz h
      exact absurd h (by simp [cFindValidRoomPosition])
  | cons d0 rest ih =>
      intro d nx nz h
      unfold cFindValidRoomPosition at h
      by_cases h1 : src.doors.flag d0 = true
      · rw [if_pos h1] at h
        exact ih d nx nz h
      · rw [if_neg h1] at h
        by_cases h2 : cIsValidRoomPosition rooms (cCandidatePos src d0).1 (cCandidatePos src d0).2
        · rw [if_pos h2] at h
          cases h
          exact ⟨(cCandidatePos_eq src d0).1, (cCandidatePos_eq src d0).2⟩
        · rw [if_neg h2] at h
          exact ih d nx nz h

/-- A left fold that at each step keeps either the accumulator or the new
element lands on the seed or a list element. -/
lemma foldl_choice_mem {f : Nat → Nat → Nat} (hf : ∀ b c, f b c = b ∨ f b c = c) :
    ∀ (l : List Nat) (a : Nat), l.foldl f a ∈ a :: l := by
  intro l
  induction l with
  | nil => intro a; exact List.mem_singleton.mpr rfl
  | cons c cs ih =>
      intro a
      show cs.foldl f (f a c) ∈ a :: c :: cs
      have h := ih (f a c)
      rcases List.mem_cons.mp h with h1 | h1
      · rw [h1]
        rcases hf a c with h2 | h2 <;> rw [h2] <;> simp
      · simp [h1]

/-- The chosen source-room index is in range. -/
lemma cPickSource_lt (rooms : List CRoom) (si : Nat) (h : cPickSource rooms = some si) :
    si < rooms.length := by
  unfold cPickSource at h
  rcases hmatch : (List.range rooms.length).filter
      (fun i => decide (countDoors (rooms.getD i cDefaultRoom).doors < 4)) with _ | ⟨a, rest⟩
  · rw [hmatch] at h
    cases h
  · rw [hmatch] at h
    have hchoice : ∀ b c : Nat,
        (fun best cur =>
          let bR := rooms.getD best cDefaultRoom
          let cR := rooms.getD cur cDefaultRoom
          if countDoors cR.doors < countDoors bR.doors then cur
          else if countDoors cR.doors = countDoors bR.doors ∧ distSq cR > distSq bR then cur
          else best) b c = b ∨
        (fun best cur =>
          let bR := rooms.getD best cDefaultRoom
          let cR := rooms.getD cur cDefaultRoom
          if countDoors cR.doors < countDoors bR.doors then cur
          else if countDoors cR.doors = countDoors bR.doors ∧ distSq cR > distSq bR then cur
          else best) b c = c := by
      intro b c
      dsimp only
      by_cases hc1 : countDoors (rooms.getD c cDefaultRoom).doors
          < countDoors (rooms.getD b cDefaultRoom).doors
      · rw [if_pos hc1]; right; rfl
      · rw [if_neg hc1]
        by_cases hc2 : countDoors (rooms.getD c cDefaultRoom).doors
            = countDoors (rooms.getD b cDefaultRoom).doors
            ∧ distSq (rooms.getD c cDefaultRoom) > distSq (rooms.getD b cDefaultRoom)
        · rw [if_pos hc2]; right; rfl
        · rw [if_neg hc2]; left; rfl
    have hmem := foldl_choice_mem hchoice rest a
    have hsi : si ∈ a :: rest := by
      cases h
      exact hmem
    have hsub : si ∈ (List.range rooms.length).filter
        (fun i => decide (countDoors (rooms.getD i cDefaultRoom).doors < 4)) := by
      rw [hmatch]
      exact hsi
    exact List.mem_range.mp (List.mem_filter.mp hsub).1

/-- Generic invariant preservation through a left fold. -/
lemma foldl_inv {α β : Type} (I : α → Prop) (f : α → β → α) :
    ∀ (l : List β) (s : α), (∀ st x, x ∈ l → I st → I (f st x)) → I s → I (l.foldl f s) := by
  intro l
  induction l with
  | nil => intro s _ hs; exact hs
  | cons c cs ih =>
      intro s hf hs
      show I (cs.foldl f (f s c))
      exact ih _ (fun st x hx => hf st x (List.mem_cons_of_mem c hx))
        (hf s c (List.mem_cons_self c cs) hs)

/-- The adjacency backfill keeps the room count and the door-pair invariant. -/
lemma cCheckAdjacent_doorSym (s : CState) (newIdx : Nat) (hn : newIdx < s.rooms.length)
    (hsym : cDoorSym s.rooms) :
    (cCheckAdjacent s newIdx).rooms.length = s.rooms.length ∧
    cDoorSym (cCheckAdjacent s newIdx).rooms := by
  unfold cCheckAdjacent
  refine foldl_inv (fun st => st.rooms.length = s.rooms.length ∧ cDoorSym st.rooms) _
    (List.range s.rooms.length) s ?_ ⟨rfl, hsym⟩
  intro st i hi hst
  obtain ⟨hlen, hsymst⟩ := hst
  have hirange : i < s.rooms.length := List.mem_range.mp hi
  by_cases hieq : i = newIdx
  · rw [if_pos hieq]
    exact ⟨hlen, hsymst⟩
  · rw [if_neg hieq]
    have hb1 : newIdx < st.rooms.length := by omega
    have hb2 : i < st.rooms.length := by omega
    have hnr : st.rooms.getD newIdx cDefaultRoom = st.rooms[newIdx] :=
      List.getD_eq_getElem st.rooms cDefaultRoom hb1
    have her : st.rooms.getD i cDefaultRoom = st.rooms[i] :=
      List.getD_eq_getElem st.rooms cDefaultRoom hb2
    by_cases hadj : areRoomsAdjacent (st.rooms.getD newIdx cDefaultRoom)
        (st.rooms.getD i cDefaultRoom)
    · rw [if_pos hadj]
      rcases hdir : getAdjacentDirection (st.rooms.getD newIdx cDefaultRoom)
          (st.rooms.getD i cDefaultRoom) with _ | d
      · exact ⟨hlen, hsymst⟩
      · have hoff := adj_offset _ _ d hadj hdir
        rw [hnr, her] at hoff
        constructor
        · simp [cCreateConnection, hlen]
        · have hconn := cDoorSym_connect st.rooms newIdx i (by omega) (by omega)
            (fun heq => hieq heq.symm) d hoff.1 hoff.2 hsymst
          simp only [cCreateConnection]
          rw [hnr, her]
          exact hconn
    · rw [if_neg hadj]
      exact ⟨hlen, hsymst⟩

/-- One step of the richer generator keeps the door-pair invariant. -/
lemma cGenStep_doorSym (shuffled : List Dir) (s : CState) (hsym : cDoorSym s.rooms) :
    cDoorSym (cGenStep shuffled s).rooms := by
  unfold cGenStep
  split
  · exact hsym
  · rename_i si hpick
    have hsi : si < s.rooms.length := cPickSource_lt s.rooms si hpick
    split
    · exact hsym
    · rename_i d nx nz hfind
      have hoff := cFind_eq s.rooms (s.rooms.getD si cDefaultRoom) shuffled d nx nz hfind
      have hsrc : s.rooms.getD si cDefaultRoom = s.rooms[si] :=
        List.getD_eq_getElem s.rooms cDefaultRoom hsi
      rw [hsrc] at hoff
      rw [hsrc]
      -- the appended doorless room keeps the invariant
      have hgrow : cDoorSym (s.rooms ++ [(⟨nx, nz, cRoomSize, ⟨false, false, false, false⟩⟩ : CRoom)]) :=
        cDoorSym_append_doorless s.rooms _ (fun dd => by cases dd <;> rfl) hsym
      have hlen : (s.rooms ++ [(⟨nx, nz, cRoomSize, ⟨false, false, false, false⟩⟩ : CRoom)]).length
          = s.rooms.length + 1 := by simp
      have hb3 : si < (s.rooms ++ [(⟨nx, nz, cRoomSize, ⟨false, false, false, false⟩⟩ : CRoom)]).length := by
        rw [hlen]; omega
      have hb4 : s.rooms.length <
          (s.rooms ++ [(⟨nx, nz, cRoomSize, ⟨false, false, false, false⟩⟩ : CRoom)]).length := by
        rw [hlen]; omega
      have hgi : (s.rooms ++ [(⟨nx, nz, cRoomSize, ⟨false, false, false, false⟩⟩ : CRoom)])[si]
          = s.rooms[si] := List.getElem_append_left hsi
      have hgn : (s.rooms ++ [(⟨nx, nz, cRoomSize, ⟨false, false, false, false⟩⟩ : CRoom)])[s.rooms.length]
          = (⟨nx, nz, cRoomSize, ⟨false, false, false, false⟩⟩ : CRoom) := by
        rw [List.getElem_append_right (Nat.le_refl _)]
        simp
      have hconn := cDoorSym_connect
        (s.rooms ++ [(⟨nx, nz, cRoomSize, ⟨false, false, false, false⟩⟩ : CRoom)])
        si s.rooms.length (by omega) (by omega) (by omega) d
        (by rw [hgi, hgn]; exact hoff.1)
        (by rw [hgi, hgn]; exact hoff.2)
        hgrow
      rw [hgi, hgn] at hconn
      exact (cCheckAdjacent_doorSym
        ⟨((s.rooms ++ [(⟨nx, nz, cRoomSize, ⟨false, false, false, false⟩⟩ : CRoom)]).set si
            (cAddDoor s.rooms[si] d)).set s.rooms.length
            (cAddDoor (⟨nx, nz, cRoomSize, ⟨false, false, false, false⟩⟩ : CRoom) d.opposite),
          s.hallways ++ [(cCreateConnection s.rooms[si]
            (⟨nx, nz, cRoomSize, ⟨false, false, false, false⟩⟩ : CRoom) d).2.2]⟩
        s.rooms.length
        (by simp only [List.length_set, List.length_append, List.length_singleton]; omega)
        hconn).2

/-- Loop-level preservation for the richer generator. -/
lemma cGenLoop_inv (target : Nat) (P : CState → Prop)
    (hstep : ∀ c s, P s → P (cGenStep c s)) :
    ∀ (cs : List (List Dir)) (s : CState), P s → P (cGenLoop target cs s) := by
  intro cs
  induction cs with
  | nil => intro s hs; exact hs
  | cons c cs ih =>
      intro s hs
      unfold cGenLoop
      by_cases h : s.rooms.length < target
      · rw [if_pos h]; exact ih _ (hstep c s hs)
      · rw [if_neg h]; exact hs

lemma cGenerateDungeon_doorSym (choices : List (List Dir)) (target : Nat) :
    cDoorSym (cGenerateDungeon choices target).rooms := by
  refine cGenLoop_inv target (fun s => cDoorSym s.rooms) cGenStep_doorSym choices _ ?_
  intro k hk dd hdd
  simp only [List.length_singleton] at hk
  have hk0 : k = 0 := by omega
  subst hk0
  rw [show ([(⟨0, 0, cRoomSize, ⟨false, false, false, false⟩⟩ : CRoom)])[0]
      = (⟨0, 0, cRoomSize, ⟨false, false, false, false⟩⟩ : CRoom) from rfl] at hdd
  cases dd <;> simp [Sides.flag] at hdd

/-- C3: in every layout returned by either generator variant, door flags
occur only in symmetric pairs: a room with a door flag set on a side as the
result of a connection has a neighbor at the exact generation offset with
the opposite-side flag set, and each single connection operation sets both
facing flags together (shown for the richer variant's createConnection and
for the simple variant's accepted-placement state). -/
theorem door_pairs_symmetric (choices : List Choice) (target : Nat)
    (cchoices : List (List Dir)) (ctarget : Nat) :
    doorSym (generateDungeon choices target).rooms ∧
    cDoorSym (cGenerateDungeon cchoices ctarget).rooms ∧
    (∀ (r1 r2 : CRoom) (d : Dir),
       (cCreateConnection r1 r2 d).1.doors.flag d = true ∧
       (cCreateConnection r1 r2 d).2.1.doors.flag d.opposite = true) ∧
    (∀ (s : GenState) (i : Nat) (hi : i < s.rooms.length) (d : Dir),
       ((acceptConnection s i hi d).rooms.getD i (createRoom 0 0 0)).doors.flag d = true ∧
       ((acceptConnection s i hi d).rooms.getD s.rooms.length
           (createRoom 0 0 0)).doors.flag d.opposite = true) := by
  refine ⟨generateDungeon_doorSym choices target, cGenerateDungeon_doorSym cchoices ctarget,
    ?_, ?_⟩
  · intro r1 r2 d
    exact ⟨withTrue_flag_self r1.doors d, withTrue_flag_self r2.doors d.opposite⟩
  · intro s i hi d
    have hlen := accept_rooms_length s i hi d
    constructor
    · rw [List.getD_eq_getElem _ _ (by omega),
        accept_get_of_lt s i hi d i hi (by omega), if_pos rfl]
      exact addDoor_flag_self _ d
    · rw [List.getD_eq_getElem _ _ (by omega), accept_get_last s i hi d (by omega)]
      exact addDoor_flag_self _ d.opposite

theorem door_pairs_symmetric_witness :
    doorSym (generateDungeon [⟨0, .east⟩] 8).rooms ∧
    cDoorSym (cGenerateDungeon [[.east]] 15).rooms ∧
    ((acceptConnection ⟨[createRoom 0 0 0], []⟩ 0 (by decide) .east).rooms.getD 0
        (createRoom 0 0 0)).doors.flag .east = true :=
  ⟨(door_pairs_symmetric [⟨0, .east⟩] 8 [[.east]] 15).1,
   (door_pairs_symmetric [⟨0, .east⟩] 8 [[.east]] 15).2.1,
   ((door_pairs_symmetric [⟨0, .east⟩] 8 [[.east]] 15).2.2.2
      ⟨[createRoom 0 0 0], []⟩ 0 (by decide) .east).1⟩

/-!
Part 3: the session registry and broadcast hub of src/server/src/index.ts.
Inbound frames are modelled as parsed JSON values (a frame that fails
JSON.parse arrives as none: the thrown error is caught and ignored).
JSON numbers are modelled as rationals; the message handlers only test the
numeric tag and copy values, so no floating-point behavior is observable.
Time is an integer count of milliseconds as produced by Date.now().
The focal connection's inactivity timer is the stored deadline; clearTimeout
followed by setTimeout is modelled by overwriting it.
-/

/-- Parsed JSON values. -/
inductive JValue
  | jnull
  | jbool (b : Bool)
  | jnum (q : ℚ)
  | jstr (s : String)
  | jarr (elems : List JValue)
  | jobj (fields : List (String × JValue))

/-- Property access message[k]: a field of an object, undefined (none)
otherwise, including on arrays, which carry no such named fields here. -/
def jGet : JValue → String → Option JValue
  | .jobj fields, k => fields.lookup k
  | _, _ => none

/-- JavaScript truthiness of a value. -/
def jTruthy : JValue → Bool
  | .jnull => false
  | .jbool b => b
  | .jnum q => decide (q ≠ 0)
  | .jstr s => decide (s ≠ "")
  | .jarr _ => true
  | .jobj _ => true

/-- typeof v === 'object' (true for objects, arrays and null). -/
def jIsObjectType : JValue → Bool
  | .jnull => true
  | .jarr _ => true
  | .jobj _ => true
  | _ => false

/-- typeof v === 'number'. -/
def jIsNumber : JValue → Bool
  | .jnum _ => true
  | _ => false

/-- The position/rotation sub-object check of validateMessage: the field must
be present, truthy, of object type, and carry numeric x, y and z fields. -/
def validVec (v : Option JValue) : Bool :=
  match v with
  | none => false
  | some p =>
      jTruthy p && jIsObjectType p &&
      (match jGet p "x" with | some f => jIsNumber f | none => false) &&
      (match jGet p "y" with | some f => jIsNumber f | none => false) &&
      (match jGet p "z" with | some f => jIsNumber f | none => false)

/-- validateMessage: the message must be a truthy object with a truthy string
type; a move frame needs a truthy data object with valid position and
rotation sub-objects; a ping frame needs nothing; anything else fails. -/
def validateMessage (message : JValue) : Bool :=
  if !jTruthy message || !jIsObjectType message then false
  else
    match jGet message "type" with
    | some (.jstr t) =>
        if t = "" then false
        else if t = "move" then
          match jGet message "data" with
          | some data =>
              if !jTruthy data || !jIsObjectType data then false
              else validVec (jGet data "position") && validVec (jGet data "rotation")
          | none => false
        else if t = "ping" then true
        else false
    | some _ => false
    | none => false

/-- Coordinate triple of a stored player transform. -/
structure Vec3 where
  x : ℚ
  y : ℚ
  z : ℚ
deriving DecidableEq, Repr

/-- Server-side participant record. -/
structure Player where
  id : String
  position : Vec3
  rotation : Vec3
  lastUpdate : Int
deriving DecidableEq, Repr

/-- players.get on the Map, as an association list keyed by player id. -/
def mapGet (m : List (String × Player)) (k : String) : Option Player :=
  m.lookup k

/-- players.set: replace in place when the key exists, append otherwise
(JavaScript Map.set keeps insertion order). -/
def mapSet : List (String × Player) → String → Player → List (String × Player)
  | [], k, v => [(k, v)]
  | kv :: rest, k, v => if kv.1 = k then (k, v) :: rest else kv :: mapSet rest k v

/-- players.delete: remove the entry with the key, if present. -/
def mapDelete : List (String × Player) → String → List (String × Player)
  | [], _ => []
  | kv :: rest, k => if kv.1 = k then rest else kv :: mapDelete rest k

/-- MOVE_RATE_LIMIT = 100 milliseconds. -/
def MOVE_RATE_LIMIT : Int := 100

/-- CONNECTION_TIMEOUT = 60000 milliseconds. -/
def CONNECTION_TIMEOUT : Int := 60000

/-- Outbound wire messages of the hub. -/
inductive OutMsg
  | init (playerId : String) (rooms : List Room) (hallways : List Hallway)
      (players : List Player)
  | pong
  | playerJoined (p : Player)
  | playerMoved (id : String) (position rotation : Vec3)
  | playerLeft (id : String)
deriving DecidableEq, Repr

/-- An output of the message handler: a reply on the sender's own connection
(ws.send) or a broadcast over every open connection (broadcast). -/
inductive OutEvent
  | reply (m : OutMsg)
  | broadcastAll (m : OutMsg)
deriving DecidableEq, Repr

/-- Hub state relevant to one connection's handlers: the shared participant
map and this connection's inactivity-timer deadline (none when cleared). -/
structure HubState where
  players : List (String × Player)
  timerDeadline : Option Int
deriving DecidableEq, Repr

/-- Numeric field read used on a validated sub-object (validation guarantees
the field is present and numeric on every path that reaches it). -/
def jGetNum (v : JValue) (k : String) : ℚ :=
  match jGet v k with
  | some (.jnum q) => q
  | _ => 0

/-- The position/rotation triple read from a validated sub-object. -/
def jGetVec3 (v : Option JValue) : Vec3 :=
  match v with
  | some p => ⟨jGetNum p "x", jGetNum p "y", jGetNum p "z"⟩
  | none => ⟨0, 0, 0⟩

/-- The message handler (ws.on message): parse failures and invalid frames
are dropped with no state change; valid frames rearm the inactivity timer;
ping is answered with a pong to the sender only; a move is rate limited
against the participant's lastUpdate, then stored and broadcast. -/
def handleMessage (playerId : String) (now : Int) (raw : Option JValue) (s : HubState) :
    HubState × List OutEvent :=
  match raw with
  | none => (s, [])
  | some data =>
      if !validateMessage data then (s, [])
      else
        match jGet data "type" with
        | some (.jstr t) =>
            if t = "ping" then
              ({ s with timerDeadline := some (now + CONNECTION_TIMEOUT) }, [.reply .pong])
            else
              match mapGet s.players playerId with
              | none => ({ s with timerDeadline := some (now + CONNECTION_TIMEOUT) }, [])
              | some player =>
                  if t = "move" then
                    if now - player.lastUpdate < MOVE_RATE_LIMIT then
                      ({ s with timerDeadline := some (now + CONNECTION_TIMEOUT) }, [])
                    else
                      ({ players := mapSet s.players playerId
                           { player with
                             lastUpdate := now,
                             position := jGetVec3 (jGet ((jGet data "data").getD .jnull) "position"),
                             rotation := jGetVec3 (jGet ((jGet data "data").getD .jnull) "rotation") },
                         timerDeadline := some (now + CONNECTION_TIMEOUT) },
                       [.broadcastAll (.playerMoved playerId
                          (jGetVec3 (jGet ((jGet data "data").getD .jnull) "position"))
                          (jGetVec3 (jGet ((jGet data "data").getD .jnull) "rotation")))])
                  else
                    ({ s with timerDeadline := some (now + CONNECTION_TIMEOUT) }, [])
        | _ => (s, [])

/-- findSafeSpawnPoint: the center of the first room at player height 1.5,
an origin fallback when no rooms exist. -/
def findSafeSpawnPoint (rooms : List Room) : Vec3 :=
  match rooms with
  | firstRoom :: _ =>
      ⟨(firstRoom.x : ℚ) + (firstRoom.size : ℚ) / 2, 3 / 2,
       (firstRoom.z : ℚ) + (firstRoom.size : ℚ) / 2⟩
  | [] => ⟨0, 3 / 2, 0⟩

/-- The connection handler: register the new participant (before the
snapshot is built), send it the init snapshot, and broadcast playerJoined
over every open connection; the transport layer registers the new socket in
the client set before the handler runs, so the broadcast reaches the
newcomer as well. -/
def handleConnection (rooms : List Room) (hallways : List Hallway)
    (playerId : String) (now : Int) (otherConns : List String) (newConn : String)
    (players : List (String × Player)) :
    List (String × Player) × OutMsg × List (String × OutMsg) :=
  let player : Player := ⟨playerId, findSafeSpawnPoint rooms, ⟨0, 0, 0⟩, now⟩
  let players' := mapSet players playerId player
  (players',
   .init playerId rooms hallways (players'.map Prod.snd),
   (otherConns ++ [newConn]).map (fun c => (c, .playerJoined player)))

/-- The close handler: cancel the timer, delete the participant, broadcast
playerLeft to the remaining open connections. -/
def handleClose (playerId : String) (conns : List String) (s : HubState) :
    HubState × List (String × OutMsg) :=
  (⟨mapDelete s.players playerId, none⟩,
   conns.map (fun c => (c, .playerLeft playerId)))

/-- The error handler: cancel the timer and delete the participant; it
broadcasts nothing. -/
def handleError (playerId : String) (s : HubState) :
    HubState × List (String × OutMsg) :=
  (⟨mapDelete s.players playerId, none⟩, [])

/-- Inactivity-timer expiry: the callback closes the transport when it is
still open, and the cleanup then runs through the close handler. -/
def handleTimeoutExpiry (playerId : String) (conns : List String) (s : HubState) :
    HubState × List (String × OutMsg) :=
  handleClose playerId conns s

/-! Association list lemmas for the participant map. -/

lemma lookup_none_of_not_mem (m : List (String × Player)) (k : String)
    (h : k ∉ m.map Prod.fst) : mapGet m k = none := by
  induction m with
  | nil => rfl
  | cons kv rest ih =>
      simp only [List.map_cons, List.mem_cons, not_or] at h
      show (match k == kv.1 with
            | true => some kv.2
            | false => List.lookup k rest) = none
      rw [show (k == kv.1) = false from beq_eq_false_iff_ne.mpr h.1]
      exact ih h.2

lemma mapGet_mapSet_self (m : List (String × Player)) (k : String) (v : Player) :
    mapGet (mapSet m k v) k = some v := by
  induction m with
  | nil =>
      show (match k == k with
            | true => some v
            | false => List.lookup k ([] : List (String × Player))) = some v
      rw [show (k == k) = true from beq_self_eq_true k]
  | cons kv rest ih =>
      by_cases h : kv.1 = k
      · unfold mapSet
        rw [if_pos h]
        show (match k == k with
              | true => some v
              | false => List.lookup k rest) = some v
        rw [show (k == k) = true from beq_self_eq_true k]
      · unfold mapSet
        rw [if_neg h]
        show (match k == kv.1 with
              | true => some kv.2
              | false => List.lookup k (mapSet rest k v)) = some v
        rw [show (k == kv.1) = false from beq_eq_false_iff_ne.mpr (fun he => h he.symm)]
        exact ih

lemma mapGet_mapSet_ne (m : List (String × Player)) (k q : String) (v : Player)
    (hne : q ≠ k) : mapGet (mapSet m k v) q = mapGet m q := by
  induction m with
  | nil =>
      show (match q == k with
            | true => some v
            | false => List.lookup q ([] : List (String × Player))) = none
      rw [show (q == k) = false from beq_eq_false_iff_ne.mpr hne]
      rfl
  | cons kv rest ih =>
      by_cases h : kv.1 = k
      · unfold mapSet
        rw [if_pos h]
        show (match q == k with
              | true => some v
              | false => List.lookup q rest) =
          (match q == kv.1 with
           | true => some kv.2
           | false => List.lookup q rest)
        rw [show (q == k) = false from beq_eq_false_iff_ne.mpr hne,
          show (q == kv.1) = false from beq_eq_false_iff_ne.mpr (h ▸ hne)]
      · unfold mapSet
        rw [if_neg h]
        show (match q == kv.1 with
              | true => some kv.2
              | false => List.lookup q (mapSet rest k v)) =
          (match q == kv.1 with
           | true => some kv.2
           | false => List.lookup q rest)
        by_cases hq : q = kv.1
        · rw [show (q == kv.1) = true from beq_iff_eq.mpr hq]
        · rw [show (q == kv.1) = false from beq_eq_false_iff_ne.mpr hq]
          exact ih

lemma mapDelete_keys_sublist (m : List (String × Player)) (k : String) :
    ((mapDelete m k).map Prod.fst).Sublist (m.map Prod.fst) := by
  induction m with
  | nil => simp [mapDelete]
  | cons kv rest ih =>
      by_cases h : kv.1 = k
      · unfold mapDelete
        rw [if_pos h]
        exact List.sublist_cons_self kv.1 _
      · unfold mapDelete
        rw [if_neg h]
        simp only [List.map_cons]
        exact List.Sublist.cons₂ kv.1 ih

lemma mapDelete_lookup_none (m : List (String × Player)) (k : String)
    (hnd : (m.map Prod.fst).Nodup) : mapGet (mapDelete m k) k = none := by
  induction m with
  | nil => rfl
  | cons kv rest ih =>
      simp only [List.map_cons, List.nodup_cons] at hnd
      by_cases h : kv.1 = k
      · unfold mapDelete
        rw [if_pos h]
        exact lookup_none_of_not_mem rest k (h ▸ hnd.1)
      · unfold mapDelete
        rw [if_neg h]
        show (match k == kv.1 with
              | true => some kv.2
              | false => List.lookup k (mapDelete rest k)) = none
        rw [show (k == kv.1) = false from beq_eq_false_iff_ne.mpr (fun he => h he.symm)]
        exact ih hnd.2

/-- The well-formed move frame carrying a position and rotation triple. -/
def moveJson (pos rot : Vec3) : JValue :=
  .jobj [("type", .jstr "move"),
         ("data", .jobj [
            ("position", .jobj [("x", .jnum pos.x), ("y", .jnum pos.y), ("z", .jnum pos.z)]),
            ("rotation", .jobj [("x", .jnum rot.x), ("y", .jnum rot.y), ("z", .jnum rot.z)])])]

lemma validateMessage_moveJson (pos rot : Vec3) : validateMessage (moveJson pos rot) = true := rfl

lemma handleMessage_moveJson (pid : String) (now : Int) (pos rot : Vec3) (s : HubState) :
    handleMessage pid now (some (moveJson pos rot)) s =
      (match mapGet s.players pid with
       | none => ({ s with timerDeadline := some (now + CONNECTION_TIMEOUT) }, [])
       | some player =>
           if now - player.lastUpdate < MOVE_RATE_LIMIT then
             ({ s with timerDeadline := some (now + CONNECTION_TIMEOUT) }, [])
           else
             ({ players := mapSet s.players pid
                  { player with lastUpdate := now, position := pos, rotation := rot },
                timerDeadline := some (now + CONNECTION_TIMEOUT) },
              [.broadcastAll (.playerMoved pid pos rot)])) := rfl

/-- C4: per-participant rate limiting of move messages. A validated move
arriving less than the 100 ms interval after the participant's last accepted
update leaves the stored record (position, rotation, lastUpdate) unchanged
and broadcasts nothing; one arriving at or after the interval overwrites the
stored position and rotation, stamps lastUpdate with the current time, and
broadcasts a playerMoved event with the id and the new transform. Handling a
move for one participant never changes any other participant's stored
record, so it cannot affect another participant's rate-limit window. -/
theorem move_rate_limit (pid : String) (now : Int) (pos rot : Vec3) (s : HubState)
    (p : Player) (hp : mapGet s.players pid = some p) :
    (now - p.lastUpdate < MOVE_RATE_LIMIT →
       (handleMessage pid now (some (moveJson pos rot)) s).1.players = s.players ∧
       (handleMessage pid now (some (moveJson pos rot)) s).2 = []) ∧
    (MOVE_RATE_LIMIT ≤ now - p.lastUpdate →
       (handleMessage pid now (some (moveJson pos rot)) s).1.players =
          mapSet s.players pid { p with lastUpdate := now, position := pos, rotation := rot } ∧
       mapGet (handleMessage pid now (some (moveJson pos rot)) s).1.players pid =
          some { p with lastUpdate := now, position := pos, rotation := rot } ∧
       (handleMessage pid now (some (moveJson pos rot)) s).2 =
          [.broadcastAll (.playerMoved pid pos rot)]) ∧
    (∀ q, q ≠ pid →
       mapGet (handleMessage pid now (some (moveJson pos rot)) s).1.players q =
          mapGet s.players q) := by
  rw [handleMessage_moveJson, hp]
  dsimp only
  by_cases hrate : now - p.lastUpdate < MOVE_RATE_LIMIT
  · rw [if_pos hrate]
    exact ⟨fun _ => ⟨rfl, rfl⟩, fun hge => absurd hrate (by omega), fun q _ => rfl⟩
  · rw [if_neg hrate]
    refine ⟨fun hlt => absurd hlt hrate, fun _ => ⟨rfl, ?_, rfl⟩, fun q hq => ?_⟩
    · exact mapGet_mapSet_self s.players pid _
    · exact mapGet_mapSet_ne s.players pid q _ hq

theorem move_rate_limit_witness :
    ((handleMessage "p1" 50 (some (moveJson ⟨1, 2, 3⟩ ⟨4, 5, 6⟩))
        ⟨[("p1", ⟨"p1", ⟨0, 0, 0⟩, ⟨0, 0, 0⟩, 0⟩)], some 60000⟩).1.players =
      [("p1", ⟨"p1", ⟨0, 0, 0⟩, ⟨0, 0, 0⟩, 0⟩)]) ∧
    ((handleMessage "p1" 50 (some (moveJson ⟨1, 2, 3⟩ ⟨4, 5, 6⟩))
        ⟨[("p1", ⟨"p1", ⟨0, 0, 0⟩, ⟨0, 0, 0⟩, 0⟩)], some 60000⟩).2 = []) :=
  (move_rate_limit "p1" 50 ⟨1, 2, 3⟩ ⟨4, 5, 6⟩
    ⟨[("p1", ⟨"p1", ⟨0, 0, 0⟩, ⟨0, 0, 0⟩, 0⟩)], some 60000⟩
    ⟨"p1", ⟨0, 0, 0⟩, ⟨0, 0, 0⟩, 0⟩ rfl).1 (by decide)

/-- Concrete invalid frames named by the C6 claim. -/
def badMoveNoRot : JValue :=
  .jobj [("type", .jstr "move"),
         ("data", .jobj [("position",
            .jobj [("x", .jnum 1), ("y", .jnum 2), ("z", .jnum 3)])])]

/-- A move frame whose position.x is a string rather than a number. -/
def badMoveStrCoord : JValue :=
  .jobj [("type", .jstr "move"),
         ("data", .jobj [
            ("position", .jobj [("x", .jstr "a"), ("y", .jnum 2), ("z", .jnum 3)]),
            ("rotation", .jobj [("x", .jnum 0), ("y", .jnum 0), ("z", .jnum 0)])])]

/-- A frame with an unrecognized type string. -/
def badUnknownType : JValue := .jobj [("type", .jstr "attack")]

/-- C6: every inbound frame that fails validation — in particular a move
message without the rotation sub-object, a move with a non-numeric
coordinate, and any frame with an unrecognized type — leaves the entire hub
state untouched (participant map, every stored record, and the timer) and
produces no output, neither a reply nor a broadcast; a frame that fails to
parse (arriving as none) likewise does nothing. -/
theorem invalid_frame_no_effect (pid : String) (now : Int) (raw : Option JValue)
    (s : HubState) (hinv : ∀ v, raw = some v → validateMessage v = false) :
    handleMessage pid now raw s = (s, []) ∧
    validateMessage badMoveNoRot = false ∧
    validateMessage badMoveStrCoord = false ∧
    validateMessage badUnknownType = false := by
  refine ⟨?_, rfl, rfl, rfl⟩
  rcases raw with _ | v
  · rfl
  · have h := hinv v rfl
    unfold handleMessage
    dsimp only
    rw [h]
    rfl

theorem invalid_frame_no_effect_witness :
    handleMessage "p1" 0 (some badUnknownType)
        ⟨[("p1", ⟨"p1", ⟨0, 0, 0⟩, ⟨0, 0, 0⟩, 0⟩)], some 60000⟩ =
      (⟨[("p1", ⟨"p1", ⟨0, 0, 0⟩, ⟨0, 0, 0⟩, 0⟩)], some 60000⟩, []) :=
  (invalid_frame_no_effect "p1" 0 (some badUnknownType)
    ⟨[("p1", ⟨"p1", ⟨0, 0, 0⟩, ⟨0, 0, 0⟩, 0⟩)], some 60000⟩
    (fun v h => by cases h; rfl)).1

/-- C5 counterexample: the error handler removes the participant and cancels
the timer but broadcasts nothing, so the claim that an explicit transport
error broadcasts a playerLeft event to all remaining connections fails: at
this state with one remaining connection, the error handler's output is
empty and in particular carries no playerLeft for that connection. -/
theorem error_handler_no_broadcast_cex :
    (handleError "p1" ⟨[("p1", ⟨"p1", ⟨0, 0, 0⟩, ⟨0, 0, 0⟩, 0⟩)], some 60000⟩).2 = [] ∧
    ("c2", OutMsg.playerLeft "p1") ∉
      (handleError "p1" ⟨[("p1", ⟨"p1", ⟨0, 0, 0⟩, ⟨0, 0, 0⟩, 0⟩)], some 60000⟩).2 ∧
    (handleError "p1" ⟨[("p1", ⟨"p1", ⟨0, 0, 0⟩, ⟨0, 0, 0⟩, 0⟩)], some 60000⟩).1 =
      ⟨[], none⟩ :=
  ⟨rfl, by simp [handleError, mapDelete], rfl⟩

/-- C5 as amended: transport close and inactivity expiry (which closes the
transport) cancel the timer, remove the participant, and broadcast one
playerLeft to each remaining connection; the explicit error handler cancels
the timer and removes the participant but broadcasts nothing. The transition
is idempotent in combination: when both an error and a close event arrive,
in either order, the participant is removed and each remaining connection
receives the playerLeft event exactly once in the combined output. -/
theorem close_error_cleanup (pid : String) (conns : List String) (s : HubState)
    (hnd : (s.players.map Prod.fst).Nodup) :
    ((handleClose pid conns s).1.timerDeadline = none ∧
     mapGet (handleClose pid conns s).1.players pid = none ∧
     (handleClose pid conns s).2 = conns.map (fun c => (c, OutMsg.playerLeft pid))) ∧
    ((handleError pid s).1.timerDeadline = none ∧
     mapGet (handleError pid s).1.players pid = none ∧
     (handleError pid s).2 = []) ∧
    (mapGet (handleClose pid conns (handleError pid s).1).1.players pid = none ∧
     (handleError pid s).2 ++ (handleClose pid conns (handleError pid s).1).2 =
        conns.map (fun c => (c, OutMsg.playerLeft pid))) ∧
    (mapGet (handleError pid (handleClose pid conns s).1).1.players pid = none ∧
     (handleClose pid conns s).2 ++ (handleError pid (handleClose pid conns s).1).2 =
        conns.map (fun c => (c, OutMsg.playerLeft pid))) ∧
    handleTimeoutExpiry pid conns s = handleClose pid conns s := by
  have hnd1 : ((mapDelete s.players pid).map Prod.fst).Nodup :=
    List.Nodup.sublist (mapDelete_keys_sublist s.players pid) hnd
  refine ⟨⟨rfl, mapDelete_lookup_none s.players pid hnd, rfl⟩,
    ⟨rfl, mapDelete_lookup_none s.players pid hnd, rfl⟩, ⟨?_, ?_⟩, ⟨?_, ?_⟩, rfl⟩
  · exact mapDelete_lookup_none (mapDelete s.players pid) pid hnd1
  · rfl
  · exact mapDelete_lookup_none (mapDelete s.players pid) pid hnd1
  · simp [handleClose, handleError]

theorem close_error_cleanup_witness :
    mapGet (handleClose "p1" ["c2"]
        ⟨[("p1", ⟨"p1", ⟨0, 0, 0⟩, ⟨0, 0, 0⟩, 0⟩)], some 60000⟩).1.players "p1" = none ∧
    (handleClose "p1" ["c2"]
        ⟨[("p1", ⟨"p1", ⟨0, 0, 0⟩, ⟨0, 0, 0⟩, 0⟩)], some 60000⟩).2 =
      [("c2", OutMsg.playerLeft "p1")] :=
  ⟨(close_error_cleanup "p1" ["c2"]
      ⟨[("p1", ⟨"p1", ⟨0, 0, 0⟩, ⟨0, 0, 0⟩, 0⟩)], some 60000⟩ (by decide)).1.2.1,
   (close_error_cleanup "p1" ["c2"]
      ⟨[("p1", ⟨"p1", ⟨0, 0, 0⟩, ⟨0, 0, 0⟩, 0⟩)], some 60000⟩ (by decide)).1.2.2⟩

/-- C7 counterexample: on a freshly started server the registry insertion of
the new participant happens before the init snapshot is built, so the first
connection's init message carries a players list equal to the one-element
list holding its own record — not an empty list as the claim states. -/
theorem first_init_players_nonempty_cex :
    (handleConnection (generateDungeon [] 8).rooms (generateDungeon [] 8).hallways
        "p1" 0 [] "c1" []).2.1 =
      OutMsg.init "p1" (generateDungeon [] 8).rooms (generateDungeon [] 8).hallways
        [⟨"p1", findSafeSpawnPoint (generateDungeon [] 8).rooms, ⟨0, 0, 0⟩, 0⟩] ∧
    [(⟨"p1", findSafeSpawnPoint (generateDungeon [] 8).rooms, ⟨0, 0, 0⟩, 0⟩ : Player)] ≠
      ([] : List Player) :=
  ⟨rfl, by simp⟩

/-- C7 as amended: the first connection on a freshly started server receives
an init message carrying its own fresh playerId, the generated dungeon,
which always has at least one room, and a players list containing exactly
its own record (the registry insertion precedes the snapshot). -/
theorem first_init_contents (choices : List Choice) (pid : String) (now : Int)
    (newConn : String) :
    (handleConnection (generateDungeon choices 8).rooms (generateDungeon choices 8).hallways
        pid now [] newConn []).2.1 =
      OutMsg.init pid (generateDungeon choices 8).rooms (generateDungeon choices 8).hallways
        [⟨pid, findSafeSpawnPoint (generateDungeon choices 8).rooms, ⟨0, 0, 0⟩, now⟩] ∧
    1 ≤ (generateDungeon choices 8).rooms.length := by
  constructor
  · rfl
  · rw [generateDungeon_rooms_eq]
    exact genLoop_length_pos 8 choices _ (by simp)

/-- C8 counterexample: the playerJoined broadcast runs over every open
connection with no exclusion, so the newly opened connection itself receives
the event, contradicting the claim that it goes only to every other open
connection. -/
theorem playerJoined_includes_self_cex :
    ("c2", OutMsg.playerJoined
        ⟨"p2", findSafeSpawnPoint (generateDungeon [] 8).rooms, ⟨0, 0, 0⟩, 0⟩) ∈
      (handleConnection (generateDungeon [] 8).rooms (generateDungeon [] 8).hallways
        "p2" 0 ["c1"] "c2" [("p1", ⟨"p1", ⟨0, 0, 0⟩, ⟨0, 0, 0⟩, 0⟩)]).2.2 :=
  List.mem_cons_of_mem _ (List.mem_singleton.mpr rfl)

/-- C8 as amended: after the init snapshot is sent, the playerJoined event
carrying the new participant's full record is broadcast to every currently
open connection, including the newly opened one itself (the socket joins
the server's client set before the connection handler runs, and broadcast
iterates all open clients without excluding the sender). -/
theorem playerJoined_broadcast_all (rooms : List Room) (hallways : List Hallway)
    (pid : String) (now : Int) (otherConns : List String) (newConn : String)
    (players : List (String × Player)) :
    (handleConnection rooms hallways pid now otherConns newConn players).2.2 =
      (otherConns ++ [newConn]).map
        (fun c => (c, OutMsg.playerJoined ⟨pid, findSafeSpawnPoint rooms, ⟨0, 0, 0⟩, now⟩)) ∧
    (newConn, OutMsg.playerJoined ⟨pid, findSafeSpawnPoint rooms, ⟨0, 0, 0⟩, now⟩) ∈
      (handleConnection rooms hallways pid now otherConns newConn players).2.2 := by
  constructor
  · rfl
  · show _ ∈ (otherConns ++ [newConn]).map
      (fun c => (c, OutMsg.playerJoined ⟨pid, findSafeSpawnPoint rooms, ⟨0, 0, 0⟩, now⟩))
    exact List.mem_map_of_mem _ (List.mem_append_right otherConns (List.mem_singleton.mpr rfl))

end DungeonGame
